import Mathlib

set_option maxRecDepth 100000

/-!
Verification of the container-parsing/decryption/indexing core of the
jw-scraping repository.  The JavaScript/TypeScript sources are shallowly
embedded: byte buffers become `List Nat` (each element a byte value),
JavaScript strings become `String`, machine integers become `Nat` with
explicit `% 2^w` where overflow matters, and every fallible step returns
an `Option`/`Except` value.  Library primitives that the sources call
(`crypto.subtle`, `pako.inflate`, `node-html-parser`, the `TextEncoder`)
are modelled from their documented behaviour; everything else is a direct
translation of the repository's own code.
-/

/-! ## JavaScript string helpers -/

/-- Little-endian decimal digits of `n`, with an explicit fuel argument so
that the recursion is structural (the fuel is always taken to be `n`
itself, which suffices since `n / 10 < n` for `n > 0`). -/
def natDigitsAux : Nat → Nat → List Nat
  | 0, _ => []
  | _, 0 => []
  | fuel + 1, n + 1 => ((n + 1) % 10) :: natDigitsAux fuel ((n + 1) / 10)

/-- Decimal rendering of a natural number, as JavaScript's number-to-string
conversion produces for non-negative integers. -/
def jsNatToString (n : Nat) : String :=
  if n = 0 then "0" else String.mk ((natDigitsAux n n).reverse.map Nat.digitChar)

/-- JavaScript `String(n).padStart(2, '0')`. -/
def padStart2 (s : String) : String :=
  if s.length ≥ 2 then s
  else if s.length = 1 then "0" ++ s
  else "00"

/-- JavaScript `s.slice(a, b)` for `0 ≤ a ≤ b` (the only way the sources
call it). -/
def jsSlice (s : String) (a b : Nat) : String :=
  String.mk ((s.data.drop a).take (b - a))

/-! ## Hex and base64 codecs (`CryptoService.hexToBytes`,
`CryptoService.bytesToHex`, the runtime's `atob`) -/

/-- Character class of the regex `[a-fA-F0-9]` used by
`CryptoService.hexToBytes` to clean its input. -/
def isHexChar (c : Char) : Bool :=
  ('a' ≤ c ∧ c ≤ 'f') ∨ ('A' ≤ c ∧ c ≤ 'F') ∨ ('0' ≤ c ∧ c ≤ '9')

/-- Numeric value of one hexadecimal digit (`parseInt(·, 16)` on a single
character). -/
def hexVal (c : Char) : Nat :=
  if '0' ≤ c ∧ c ≤ '9' then c.toNat - '0'.toNat
  else if 'a' ≤ c ∧ c ≤ 'f' then c.toNat - 'a'.toNat + 10
  else if 'A' ≤ c ∧ c ≤ 'F' then c.toNat - 'A'.toNat + 10
  else 0

/-- Consecutive pairs of a character list; a trailing odd character is
dropped, matching `new Uint8Array(clean.length / 2)` in the source. -/
def hexPairs : List Char → List (Char × Char)
  | c1 :: c2 :: rest => (c1, c2) :: hexPairs rest
  | _ => []

/-- `CryptoService.hexToBytes`: strip every character outside `[a-fA-F0-9]`,
then read consecutive pairs of hex digits as bytes. -/
def hexToBytes (hex : String) : List Nat :=
  (hexPairs (hex.data.filter isHexChar)).map fun p => hexVal p.1 * 16 + hexVal p.2

/-- JavaScript `b.toString(16)` for a natural number: little-endian hex
digits with fuel, then reversed and rendered. -/
def natHexDigitsAux : Nat → Nat → List Nat
  | 0, _ => []
  | _, 0 => []
  | fuel + 1, n + 1 => ((n + 1) % 16) :: natHexDigitsAux fuel ((n + 1) / 16)

/-- JavaScript `n.toString(16)` for a non-negative integer. -/
def natToHexString (n : Nat) : String :=
  if n = 0 then "0" else String.mk ((natHexDigitsAux n n).reverse.map Nat.digitChar)

/-- `CryptoService.bytesToHex`: each byte rendered via
`b.toString(16).padStart(2, '0')`, then joined (the join is expressed as
the concatenation of the rendered character lists). -/
def bytesToHex (bytes : List Nat) : String :=
  String.mk (bytes.flatMap fun b => (padStart2 (natToHexString b)).data)

/-- Value of one base64 alphabet character (the runtime's `atob`). -/
def b64Val (c : Char) : Nat :=
  if 'A' ≤ c ∧ c ≤ 'Z' then c.toNat - 'A'.toNat
  else if 'a' ≤ c ∧ c ≤ 'z' then c.toNat - 'a'.toNat + 26
  else if '0' ≤ c ∧ c ≤ '9' then c.toNat - '0'.toNat + 52
  else if c = '+' then 62
  else if c = '/' then 63
  else 0

/-- Decode base64 groups of four characters into three bytes each; a final
group of two or three characters yields one or two bytes. -/
def b64Groups : List Char → List Nat
  | c1 :: c2 :: c3 :: c4 :: rest =>
    let n := b64Val c1 * 262144 + b64Val c2 * 4096 + b64Val c3 * 64 + b64Val c4
    (n / 65536) % 256 :: (n / 256) % 256 :: n % 256 :: b64Groups rest
  | [c1, c2, c3] =>
    let n := b64Val c1 * 1024 + b64Val c2 * 16 + b64Val c3 / 4
    [(n / 256) % 256, n % 256]
  | [c1, c2] =>
    [(b64Val c1 * 4 + b64Val c2 / 16) % 256]
  | _ => []

/-- The runtime's `atob`: base64-decode to a string whose characters are the
decoded byte values. -/
def atob (s : String) : String :=
  String.mk ((b64Groups (s.data.filter (· ≠ '='))).map Char.ofNat)

/-! ## SHA-256 (the behaviour of `crypto.subtle.digest('SHA-256', ·)`),
modelled bit-for-bit from FIPS 180-4 over `Nat` with explicit reduction
modulo `2^32`. -/

/-- Reduction modulo `2 ^ 32`. -/
def w32 (n : Nat) : Nat := n % 4294967296

/-- Right rotation of a 32-bit word. -/
def rotr32 (k x : Nat) : Nat :=
  w32 ((x >>> k) ||| ((x % (2 ^ k)) <<< (32 - k)))

/-- SHA-256 working state: eight 32-bit words. -/
structure Sha256State where
  a : Nat
  b : Nat
  c : Nat
  d : Nat
  e : Nat
  f : Nat
  g : Nat
  h : Nat

/-- Initial SHA-256 hash value. -/
def sha256Init : Sha256State :=
  ⟨1779033703, 3144134277, 1013904242, 2773480762,
   1359893119, 2600822924, 528734635, 1541459225⟩

/-- The 64 SHA-256 round constants. -/
def sha256K : List Nat :=
  [1116352408, 1899447441, 3049323471, 3921009573, 961987163, 1508970993, 2453635748, 2870763221,
   3624381080, 310598401, 607225278, 1426881987, 1925078388, 2162078206, 2614888103, 3248222580,
   3835390401, 4022224774, 264347078, 604807628, 770255983, 1249150122, 1555081692, 1996064986,
   2554220882, 2821834349, 2952996808, 3210313671, 3336571891, 3584528711, 113926993, 338241895,
   666307205, 773529912, 1294757372, 1396182291, 1695183700, 1986661051, 2177026350, 2456956037,
   2730485921, 2820302411, 3259730800, 3345764771, 3516065817, 3600352804, 4094571909, 275423344,
   430227734, 506948616, 659060556, 883997877, 958139571, 1322822218, 1537002063, 1747873779,
   1955562222, 2024104815, 2227730452, 2361852424, 2428436474, 2756734187, 3204031479, 3329325298]

/-- Message-schedule extension: given the first sixteen words, produce all
sixty-four. -/
def sha256Schedule (ws : List Nat) : Nat → List Nat
  | 0 => ws
  | n + 1 =>
    let prev := sha256Schedule ws n
    let get := fun i => prev.getD i 0
    let i := prev.length
    let w15 := get (i - 15)
    let w2 := get (i - 2)
    let s0 := w32 ((rotr32 7 w15) ^^^ (rotr32 18 w15) ^^^ (w15 >>> 3))
    let s1 := w32 ((rotr32 17 w2) ^^^ (rotr32 19 w2) ^^^ (w2 >>> 10))
    prev ++ [w32 (get (i - 16) + s0 + get (i - 7) + s1)]

/-- One SHA-256 compression round. -/
def sha256Round (st : Sha256State) (k w : Nat) : Sha256State :=
  let s1 := w32 ((rotr32 6 st.e) ^^^ (rotr32 11 st.e) ^^^ (rotr32 25 st.e))
  let ch := w32 ((st.e &&& st.f) ^^^ ((st.e ^^^ 4294967295) &&& st.g))
  let t1 := w32 (st.h + s1 + ch + k + w)
  let s0 := w32 ((rotr32 2 st.a) ^^^ (rotr32 13 st.a) ^^^ (rotr32 22 st.a))
  let mj := w32 ((st.a &&& st.b) ^^^ (st.a &&& st.c) ^^^ (st.b &&& st.c))
  let t2 := w32 (s0 + mj)
  ⟨w32 (t1 + t2), st.a, st.b, st.c, w32 (st.d + t1), st.e, st.f, st.g⟩

/-- Big-endian 32-bit word from four bytes. -/
def wordOfBytes (b0 b1 b2 b3 : Nat) : Nat :=
  b0 * 16777216 + b1 * 65536 + b2 * 256 + b3

/-- The sixteen big-endian words of one 64-byte block. -/
def blockWords : List Nat → List Nat
  | b0 :: b1 :: b2 :: b3 :: rest => wordOfBytes b0 b1 b2 b3 :: blockWords rest
  | _ => []

/-- Compress one 64-byte block into the running state. -/
def sha256Compress (st : Sha256State) (block : List Nat) : Sha256State :=
  let ws := sha256Schedule (blockWords block) 48
  let final := (sha256K.zip ws).foldl (fun s kw => sha256Round s kw.1 kw.2) st
  ⟨w32 (st.a + final.a), w32 (st.b + final.b), w32 (st.c + final.c), w32 (st.d + final.d),
   w32 (st.e + final.e), w32 (st.f + final.f), w32 (st.g + final.g), w32 (st.h + final.h)⟩

/-- Split a byte list into 64-byte blocks (fuel-structured recursion). -/
def toBlocks : Nat → List Nat → List (List Nat)
  | 0, _ => []
  | _, [] => []
  | fuel + 1, bytes => bytes.take 64 :: toBlocks fuel (bytes.drop 64)

/-- Big-endian 8-byte encoding of a length in bits. -/
def lenBytes64 (n : Nat) : List Nat :=
  [(n / 72057594037927936) % 256, (n / 281474976710656) % 256,
   (n / 1099511627776) % 256, (n / 4294967296) % 256,
   (n / 16777216) % 256, (n / 65536) % 256, (n / 256) % 256, n % 256]

/-- SHA-256 padding: a `0x80` byte, zeros to 56 mod 64, then the bit length. -/
def sha256Pad (msg : List Nat) : List Nat :=
  msg ++ 128 :: List.replicate ((119 - msg.length % 64) % 64) 0 ++ lenBytes64 (msg.length * 8)

/-- Big-endian bytes of one 32-bit word. -/
def wordBytes (w : Nat) : List Nat :=
  [(w / 16777216) % 256, (w / 65536) % 256, (w / 256) % 256, w % 256]

/-- SHA-256 digest of a byte list: 32 bytes. -/
def sha256Bytes (msg : List Nat) : List Nat :=
  let padded := sha256Pad msg
  let st := (toBlocks padded.length padded).foldl sha256Compress sha256Init
  wordBytes st.a ++ wordBytes st.b ++ wordBytes st.c ++ wordBytes st.d ++
  wordBytes st.e ++ wordBytes st.f ++ wordBytes st.g ++ wordBytes st.h

/-- UTF-8 encoding of one character (the behaviour of `TextEncoder`). -/
def utf8EncodeChar (c : Char) : List Nat :=
  let n := c.toNat
  if n < 128 then [n]
  else if n < 2048 then [192 + n / 64, 128 + n % 64]
  else if n < 65536 then [224 + n / 4096, 128 + (n / 64) % 64, 128 + n % 64]
  else [240 + n / 262144, 128 + (n / 4096) % 64, 128 + (n / 64) % 64, 128 + n % 64]

/-- UTF-8 encoding of a string (the behaviour of `TextEncoder.encode`). -/
def utf8Encode (s : String) : List Nat :=
  s.data.flatMap utf8EncodeChar

/-- SHA-256 of the UTF-8 encoding of a string:
`CryptoService.generateSHA256`. -/
def generateSHA256 (text : String) : List Nat :=
  sha256Bytes (utf8Encode text)

/-- Known-answer check: SHA-256 of the empty input. -/
theorem sha256_empty_vector :
    bytesToHex (sha256Bytes []) =
      "e3b0c44298fc1c149afbf4c8996fb92427ae41e4649b934ca495991b7852b855" := by
  decide

/-- Known-answer check: SHA-256 of `"abc"`. -/
theorem sha256_abc_vector :
    bytesToHex (generateSHA256 "abc") =
      "ba7816bf8f01cfea414140de5dae2223b00361a396177a9cb410ff61f20015ad" := by
  decide

/-! ## `CryptoService` (src/src/services/crypto.ts) -/

/-- `CryptoService.xorBuffers`: `buf1.map((byte, i) => byte ^ buf2[i % buf2.length])`. -/
def xorBuffers (buf1 buf2 : List Nat) : List Nat :=
  buf1.mapIdx fun i byte => byte ^^^ buf2.getD (i % buf2.length) 0

/-- The embedded master key constant of `CryptoService.getDeriveKeyAndIv`
(a base64 encoding of a hex string). -/
def masterKeyBase64 : String :=
  "MTFjYmI1NTg3ZTMyODQ2ZDRjMjY3OTBjNjMzZGEyODlmNjZmZTU4NDJhM2E1ODVjZTFiYzNhMjk0YWY1YWRhNw=="

/-- Result record of `CryptoService.getDeriveKeyAndIv`. -/
structure DerivedKeyIv where
  key : String
  iv : String
deriving DecidableEq

/-- `CryptoService.getDeriveKeyAndIv`, translated line for line.  As a Lean
function it is deterministic by construction. -/
def getDeriveKeyAndIv (pubCard : String) : DerivedKeyIv :=
  let masterKeyHex := atob masterKeyBase64
  let hashBytes := generateSHA256 pubCard
  let keyBytes := hexToBytes masterKeyHex
  let xored := xorBuffers hashBytes keyBytes
  let fullKeyHex := bytesToHex xored
  { key := jsSlice fullKeyHex 0 32, iv := jsSlice fullKeyHex 32 64 }

theorem wordBytes_length (w : Nat) : (wordBytes w).length = 4 := rfl

theorem wordBytes_lt (w : Nat) : ∀ b ∈ wordBytes w, b < 256 := by
  intro b hb
  simp only [wordBytes, List.mem_cons, List.mem_singleton] at hb
  rcases hb with h | h | h | h | h <;> first | omega | simp at h

theorem sha256Bytes_length (msg : List Nat) : (sha256Bytes msg).length = 32 := by
  simp [sha256Bytes, wordBytes]

theorem sha256Bytes_lt (msg : List Nat) : ∀ b ∈ sha256Bytes msg, b < 256 := by
  intro b hb
  simp only [sha256Bytes, List.mem_append] at hb
  rcases hb with ((((((h | h) | h) | h) | h) | h) | h) | h <;>
    exact wordBytes_lt _ b h

theorem masterKeyBytes_length : (hexToBytes (atob masterKeyBase64)).length = 32 := by
  decide

theorem masterKeyBytes_lt : ∀ b ∈ hexToBytes (atob masterKeyBase64), b < 256 := by
  decide

theorem xorBuffers_length (buf1 buf2 : List Nat) :
    (xorBuffers buf1 buf2).length = buf1.length := by
  simp [xorBuffers]

theorem xorBuffers_lt (buf1 buf2 : List Nat)
    (h1 : ∀ b ∈ buf1, b < 256) (h2 : ∀ b ∈ buf2, b < 256) (hne : buf2 ≠ []) :
    ∀ b ∈ xorBuffers buf1 buf2, b < 256 := by
  intro b hb
  simp only [xorBuffers, List.mem_mapIdx] at hb
  obtain ⟨i, hi, rfl⟩ := hb
  have hmem : buf2.getD (i % buf2.length) 0 ∈ buf2 := by
    have hlen : 0 < buf2.length := List.length_pos.mpr hne
    rw [List.getD_eq_getElem buf2 0 (Nat.mod_lt i hlen)]
    exact List.getElem_mem _
  have hx : buf1[i] < 2 ^ 8 := h1 _ (List.getElem_mem hi)
  have hy : buf2.getD (i % buf2.length) 0 < 2 ^ 8 := h2 _ hmem
  exact Nat.xor_lt_two_pow hx hy

theorem byteHex_length : ∀ b < 256, (padStart2 (natToHexString b)).data.length = 2 := by
  decide

theorem bytesToHex_data_length (bytes : List Nat) (h : ∀ b ∈ bytes, b < 256) :
    (bytesToHex bytes).data.length = 2 * bytes.length := by
  show (bytes.flatMap fun b => (padStart2 (natToHexString b)).data).length = 2 * bytes.length
  induction bytes with
  | nil => rfl
  | cons b rest ih =>
    have hb := h b (List.mem_cons_self b rest)
    have hrest : ∀ x ∈ rest, x < 256 := fun x hx => h x (List.mem_cons_of_mem b hx)
    have ih' := ih hrest
    simp only [List.flatMap_cons, List.length_append, List.length_cons, ih',
      byteHex_length b hb]
    omega

/-- С1 helper: the XOR of the digest with the master key has 32 byte values. -/
theorem xored_lt (pubCard : String) :
    ∀ b ∈ xorBuffers (generateSHA256 pubCard) (hexToBytes (atob masterKeyBase64)), b < 256 := by
  refine xorBuffers_lt _ _ (sha256Bytes_lt _) masterKeyBytes_lt ?_
  intro h
  have h32 := masterKeyBytes_length
  rw [h] at h32
  simp at h32

/-- C1 helper: the XOR result has exactly 32 bytes. -/
theorem xored_length (pubCard : String) :
    (xorBuffers (generateSHA256 pubCard) (hexToBytes (atob masterKeyBase64))).length = 32 := by
  rw [xorBuffers_length]
  exact sha256Bytes_length _

/-- Length of a `jsSlice`. -/
theorem jsSlice_length (s : String) (a b : Nat) :
    (jsSlice s a b).length = min (b - a) (s.data.length - a) := by
  show ((s.data.drop a).take (b - a)).length = _
  rw [List.length_take, List.length_drop]

/-- The `key` projection of `getDeriveKeyAndIv`, unfolded. -/
theorem getDeriveKeyAndIv_key (pubCard : String) :
    (getDeriveKeyAndIv pubCard).key =
      jsSlice (bytesToHex (xorBuffers (generateSHA256 pubCard)
        (hexToBytes (atob masterKeyBase64)))) 0 32 := rfl

/-- The `iv` projection of `getDeriveKeyAndIv`, unfolded. -/
theorem getDeriveKeyAndIv_iv (pubCard : String) :
    (getDeriveKeyAndIv pubCard).iv =
      jsSlice (bytesToHex (xorBuffers (generateSHA256 pubCard)
        (hexToBytes (atob masterKeyBase64)))) 32 64 := rfl

/-- C1: for every `pubCard` string, `getDeriveKeyAndIv` returns a key and an
IV of 32 hex characters (16 bytes) each; their concatenation is exactly the
64-character hex rendering of the 32-byte SHA-256 digest of the UTF-8
`pubCard` XORed byte-for-byte (cyclically) with the 32-byte master key
obtained by base64-decoding the embedded constant to a hex string and
hex-decoding that to raw bytes.  Determinism is immediate: the embedding is
a pure function of `pubCard`.  The key is the first 32 hex characters and
the IV the next 32, by the slices in the definition. -/
theorem c1_getDeriveKeyAndIv_spec (pubCard : String) :
    (getDeriveKeyAndIv pubCard).key.length = 32 ∧
    (getDeriveKeyAndIv pubCard).iv.length = 32 ∧
    (getDeriveKeyAndIv pubCard).key ++ (getDeriveKeyAndIv pubCard).iv =
      bytesToHex (xorBuffers (generateSHA256 pubCard) (hexToBytes (atob masterKeyBase64))) ∧
    (hexToBytes (atob masterKeyBase64)).length = 32 := by
  have hdata :
      (bytesToHex (xorBuffers (generateSHA256 pubCard)
        (hexToBytes (atob masterKeyBase64)))).data.length = 64 := by
    rw [bytesToHex_data_length _ (xored_lt pubCard), xored_length]
  refine ⟨?_, ?_, ?_, masterKeyBytes_length⟩
  · rw [getDeriveKeyAndIv_key, jsSlice_length, hdata]
    omega
  · rw [getDeriveKeyAndIv_iv, jsSlice_length, hdata]
    omega
  · rw [getDeriveKeyAndIv_key, getDeriveKeyAndIv_iv]
    show String.mk _ ++ String.mk _ = _
    have happ : ∀ a b : List Char, String.mk a ++ String.mk b = String.mk (a ++ b) :=
      fun a b => rfl
    rw [happ]
    have hdrop :
        ((bytesToHex (xorBuffers (generateSHA256 pubCard)
          (hexToBytes (atob masterKeyBase64)))).data.drop 32).take 32 =
        (bytesToHex (xorBuffers (generateSHA256 pubCard)
          (hexToBytes (atob masterKeyBase64)))).data.drop 32 := by
      apply List.take_of_length_le
      rw [List.length_drop, hdata]
    rw [Nat.sub_zero, List.drop_zero, hdrop, List.take_append_drop]

/-- Cross-check of the whole derivation on a concrete PubCard, against the
value computed by an independent implementation of the same scheme. -/
theorem getDeriveKeyAndIv_vector :
    getDeriveKeyAndIv "0_mwb_2025_100" =
      { key := "3e30ed2e20125b64e2d3960f426df496",
        iv := "ed98a88bfa7aaa90755c311af1be37f4" } := by
  decide

/-! ## `CryptoService.decryptAndInflate` (src/src/services/crypto.ts).

The code chains two library calls over the ciphertext: first
`crypto.subtle.decrypt({name:'AES-CBC', iv}, key, data)`, which (per the Web
Crypto specification) rejects with an `OperationError` exactly when the
ciphertext length is not a multiple of the 16-byte block size or the
CBC-decrypted plaintext does not end in valid PKCS#7 padding, and otherwise
yields the unpadded plaintext; then `pako.inflate`, which throws exactly
when its input is not a valid zlib/DEFLATE stream.  The AES block
permutation and the DEFLATE decompressor themselves are opaque parameters
of the model (`decBlock`, `inflateFn`); the block chaining, the alignment
check, the PKCS#7 validation and the sequencing of the two failure kinds
are modelled concretely.  The error taxonomy (`CryptoError` for a rejection
from the cipher, `InflateError` for a decompression failure) is the one the
specification assigns to the two stages. -/

/-- Chunk a ciphertext into 16-byte blocks (fuel-structural recursion). -/
def toBlocks16 : Nat → List Nat → List (List Nat)
  | 0, _ => []
  | _, [] => []
  | fuel + 1, bytes => bytes.take 16 :: toBlocks16 fuel (bytes.drop 16)

/-- CBC chaining: each plaintext block is the block decryption of the
ciphertext block XORed with the previous ciphertext block (the IV first). -/
def cbcDecrypt (decBlock : List Nat → List Nat) (prev : List Nat) :
    List (List Nat) → List Nat
  | [] => []
  | b :: rest => List.zipWith (· ^^^ ·) (decBlock b) prev ++ cbcDecrypt decBlock b rest

/-- PKCS#7 unpadding: the last byte names the padding length `p`, which must
be between 1 and 16 and repeated over the last `p` bytes. -/
def pkcs7Unpad (pt : List Nat) : Option (List Nat) :=
  match pt.getLast? with
  | none => none
  | some p =>
    if 1 ≤ p ∧ p ≤ 16 ∧ p ≤ pt.length ∧ (pt.drop (pt.length - p)).all (· = p)
    then some (pt.take (pt.length - p))
    else none

/-- The Web Crypto `AES-CBC` decryption operation: `none` models a rejected
promise (`OperationError`). -/
def subtleAesCbcDecrypt (decBlock : List Nat → List Nat) (iv data : List Nat) :
    Option (List Nat) :=
  if data.length % 16 = 0 then
    pkcs7Unpad (cbcDecrypt decBlock iv (toBlocks16 data.length data))
  else none

/-- The two failure kinds of the decrypt-then-inflate pipeline. -/
inductive PipelineError where
  | cryptoError
  | inflateError
deriving DecidableEq

/-- Lossy UTF-8 decoding of one step: returns the decoded character and the
remaining bytes.  Invalid sequences produce the replacement character
U+FFFD, as `TextDecoder` does. -/
def utf8DecodeStep : List Nat → Char × List Nat
  | [] => (Char.ofNat 0xFFFD, [])
  | b :: rest =>
    let cont := fun x => 128 ≤ x ∧ x < 192
    let repl := Char.ofNat 0xFFFD
    let mk := fun n =>
      if h : n < 0xD800 ∨ (0xE000 ≤ n ∧ n < 0x110000) then
        Char.ofNatAux n (by rcases h with h | h <;> simp [UInt32.isValidChar, Nat.isValidChar] <;> omega)
      else repl
    if b < 128 then (mk b, rest)
    else if b < 192 then (repl, rest)
    else if b < 224 then
      match rest with
      | b2 :: r2 =>
        if cont b2 then
          let n := (b - 192) * 64 + (b2 - 128)
          (if 128 ≤ n then mk n else repl, r2)
        else (repl, rest)
      | [] => (repl, [])
    else if b < 240 then
      match rest with
      | b2 :: b3 :: r3 =>
        if cont b2 ∧ cont b3 then
          let n := (b - 224) * 4096 + (b2 - 128) * 64 + (b3 - 128)
          (if 2048 ≤ n then mk n else repl, r3)
        else (repl, rest)
      | _ => (repl, [])
    else if b < 248 then
      match rest with
      | b2 :: b3 :: b4 :: r4 =>
        if cont b2 ∧ cont b3 ∧ cont b4 then
          let n := (b - 240) * 262144 + (b2 - 128) * 4096 + (b3 - 128) * 64 + (b4 - 128)
          (if 65536 ≤ n then mk n else repl, r4)
        else (repl, rest)
      | _ => (repl, [])
    else (repl, rest)

/-- Fuel-driven lossy UTF-8 decoding loop. -/
def utf8DecodeGo : Nat → List Nat → List Char
  | 0, _ => []
  | _, [] => []
  | fuel + 1, bytes =>
    let (c, rest) := utf8DecodeStep bytes
    c :: utf8DecodeGo fuel rest

/-- Lossy UTF-8 decoding of a byte list, modelling `TextDecoder.decode`. -/
def utf8Decode (bytes : List Nat) : String :=
  String.mk (utf8DecodeGo bytes.length bytes)

/-- `CryptoService.decryptAndInflate`: AES-128-CBC decryption (via the key
and IV given as hex strings) followed by zlib inflation and UTF-8 decoding.
`decBlock keyBytes` is the opaque AES block decryption under `keyBytes`;
`inflateFn` is the opaque DEFLATE decompressor (`none` models a throw). -/
def decryptAndInflate (decBlock : List Nat → List Nat → List Nat)
    (inflateFn : List Nat → Option (List Nat))
    (data : List Nat) (keyHex ivHex : String) : Except PipelineError String :=
  match subtleAesCbcDecrypt (decBlock (hexToBytes keyHex)) (hexToBytes ivHex) data with
  | none => .error .cryptoError
  | some pt =>
    match inflateFn pt with
    | none => .error .inflateError
    | some out => .ok (utf8Decode out)

/-- C8: `decryptAndInflate` fails with the crypto-stage error exactly when
the ciphertext is not block-aligned or the CBC-decrypted plaintext has
invalid PKCS#7 padding; it fails with the distinct inflate-stage error
exactly when decryption succeeds but the plaintext is not a valid
compressed stream; and on success it returns the UTF-8 decoding of the
decompressed plaintext. -/
theorem c8_decryptAndInflate_errors (decBlock : List Nat → List Nat → List Nat)
    (inflateFn : List Nat → Option (List Nat))
    (data : List Nat) (keyHex ivHex : String) :
    (decryptAndInflate decBlock inflateFn data keyHex ivHex = .error .cryptoError ↔
      ¬ data.length % 16 = 0 ∨
        pkcs7Unpad (cbcDecrypt (decBlock (hexToBytes keyHex)) (hexToBytes ivHex)
          (toBlocks16 data.length data)) = none) ∧
    (decryptAndInflate decBlock inflateFn data keyHex ivHex = .error .inflateError ↔
      ∃ pt, data.length % 16 = 0 ∧
        pkcs7Unpad (cbcDecrypt (decBlock (hexToBytes keyHex)) (hexToBytes ivHex)
          (toBlocks16 data.length data)) = some pt ∧
        inflateFn pt = none) ∧
    (∀ s, decryptAndInflate decBlock inflateFn data keyHex ivHex = .ok s ↔
      ∃ pt out, data.length % 16 = 0 ∧
        pkcs7Unpad (cbcDecrypt (decBlock (hexToBytes keyHex)) (hexToBytes ivHex)
          (toBlocks16 data.length data)) = some pt ∧
        inflateFn pt = some out ∧ s = utf8Decode out) ∧
    (Except.error PipelineError.cryptoError ≠
      (Except.error PipelineError.inflateError : Except PipelineError String)) := by
  unfold decryptAndInflate subtleAesCbcDecrypt
  by_cases halign : data.length % 16 = 0
  · simp only [halign, if_pos rfl]
    cases hpad : pkcs7Unpad (cbcDecrypt (decBlock (hexToBytes keyHex)) (hexToBytes ivHex)
        (toBlocks16 data.length data)) with
    | none => simp
    | some pt =>
      cases hinf : inflateFn pt with
      | none => simp [hinf]
      | some out =>
        simp only [if_true, hinf]
        refine ⟨by simp, by simp [hinf], fun s => ?_, by simp⟩
        constructor
        · intro hok
          obtain rfl : utf8Decode out = s := by injection hok
          exact ⟨pt, out, trivial, rfl, hinf, rfl⟩
        · rintro ⟨pt2, out2, -, hp2, hi2, rfl⟩
          obtain rfl : pt = pt2 := by injection hp2
          rw [hinf] at hi2
          obtain rfl : out = out2 := by injection hi2
          rfl
  · simp [if_neg halign, halign]

/-! ## `DiscoveryService.discover` (src/unnamed/part_011).

The loop performs one HTTP round-trip per candidate issue; we embed the
sequence of network outcomes as a list consumed one element per iteration
(the real loop would keep iterating on an unbounded stream, so every
theorem about termination is phrased over the consumed prefix).  A `200`
response whose parsed JSON has an entry for the requested language carries
the two optional download URLs. -/

/-- Download URLs found under `data.files[language]`. -/
structure LangFiles where
  jwpubUrl : Option String
  epubUrl : Option String
deriving DecidableEq

/-- One network outcome, as distinguished by the source: a `200` whose body
has (or lacks) the language entry, a `404`, any other status, or a thrown
transport/parse error. -/
inductive Resp where
  | ok (langData : Option LangFiles)
  | notFound
  | otherStatus
  | fetchError
deriving DecidableEq

/-- A discovered publication entry. -/
structure DiscoveredPublication where
  pub : String
  issue : String
  language : String
  jwpubUrl : Option String
  epubUrl : Option String
deriving DecidableEq

/-- Issue tag `` `${currentYear}${String(currentMonth).padStart(2, '0')}` ``. -/
def mkIssue (y m : Nat) : String :=
  jsNatToString y ++ padStart2 (jsNatToString m)

/-- Month stepping at the bottom of the loop: `+2` for `mwb`, `+1`
otherwise, with rollover past month 12. -/
def advanceIssue (pub : String) (y m : Nat) : Nat × Nat :=
  let m2 := if pub = "mwb" then m + 2 else m + 1
  if m2 > 12 then (y + 1, m2 - 12) else (y, m2)

/-- Whether a response counts as a miss for the `notFoundCount` counter: a
`404`, any other non-200 status, and a thrown error all increment it, and
only a `200` resets it. -/
def isMiss : Resp → Bool
  | .ok _ => false
  | _ => true

/-- The body of the `while (notFoundCount < maxNotFound)` loop, one list
element per iteration.  `cnt` is the current `notFoundCount`. -/
def discoverLoop (pub lang : String) (maxNF : Nat) :
    Nat → Nat → Nat → List Resp → List DiscoveredPublication
  | _, _, _, [] => []
  | cnt, y, m, r :: rest =>
    if maxNF ≤ cnt then []
    else
      let next := advanceIssue pub y m
      match r with
      | .ok langData =>
        let pubs := match langData with
          | some d => [⟨pub, mkIssue y m, lang, d.jwpubUrl, d.epubUrl⟩]
          | none => []
        pubs ++ discoverLoop pub lang maxNF 0 next.1 next.2 rest
      | _ => discoverLoop pub lang maxNF (cnt + 1) next.1 next.2 rest

/-- `DiscoveryService.discover`: the year is forced to 2025, the starting
month is the current month (a parameter of the embedding, between 1 and
12), decremented by one for `mwb` when even; `maxNotFound` is the constant
1 of the source. -/
def discover (pub lang : String) (startMonth : Nat) (rs : List Resp) :
    List DiscoveredPublication :=
  let m := if pub = "mwb" ∧ startMonth % 2 = 0 then startMonth - 1 else startMonth
  discoverLoop pub lang 1 0 2025 m rs

/-- Reference collector: the publications contributed by a response prefix,
ignoring the stopping rule (every response advances the issue; only a `200`
with a language entry contributes an element). -/
def collectPubs (pub lang : String) : Nat → Nat → List Resp → List DiscoveredPublication
  | _, _, [] => []
  | y, m, r :: rest =>
    let next := advanceIssue pub y m
    let pubs := match r with
      | .ok (some d) => [⟨pub, mkIssue y m, lang, d.jwpubUrl, d.epubUrl⟩]
      | _ => []
    pubs ++ collectPubs pub lang next.1 next.2 rest

/-- Number of consecutive misses at the end of a response prefix. -/
def trailingMisses (rs : List Resp) : Nat :=
  (rs.reverse.takeWhile isMiss).length

/-- Running value of `notFoundCount` after consuming a prefix, starting
from `c`. -/
def cntAfter (c : Nat) : List Resp → Nat
  | [] => c
  | r :: rest => cntAfter (if isMiss r then c + 1 else 0) rest

/-- Equation: the loop with the counter at or past the threshold exits at
once. -/
theorem discoverLoop_stopped (pub lang : String) (maxNF cnt y m : Nat)
    (rs : List Resp) (h : maxNF ≤ cnt) :
    discoverLoop pub lang maxNF cnt y m rs = [] := by
  cases rs with
  | nil => rfl
  | cons r rest => simp [discoverLoop, if_pos h]

/-- Equation: a `200` response appends its publications (if the language
entry is present), resets the counter to zero and advances the issue. -/
theorem discoverLoop_cons_ok (pub lang : String) (maxNF cnt y m : Nat)
    (ld : Option LangFiles) (rest : List Resp) (hcnt : cnt < maxNF) :
    discoverLoop pub lang maxNF cnt y m (.ok ld :: rest) =
      (match ld with
        | some d => [⟨pub, mkIssue y m, lang, d.jwpubUrl, d.epubUrl⟩]
        | none => []) ++
      discoverLoop pub lang maxNF 0 (advanceIssue pub y m).1 (advanceIssue pub y m).2 rest := by
  cases ld with
  | some d => simp [discoverLoop, Nat.not_le.mpr hcnt]
  | none => simp [discoverLoop, Nat.not_le.mpr hcnt]

/-- Equation: a miss of any kind (404, other status, thrown error)
increments the counter, emits nothing and advances the issue. -/
theorem discoverLoop_cons_miss (pub lang : String) (maxNF cnt y m : Nat)
    (r : Resp) (rest : List Resp) (hcnt : cnt < maxNF) (hmiss : isMiss r = true) :
    discoverLoop pub lang maxNF cnt y m (r :: rest) =
      discoverLoop pub lang maxNF (cnt + 1)
        (advanceIssue pub y m).1 (advanceIssue pub y m).2 rest := by
  cases r with
  | ok ld => simp [isMiss] at hmiss
  | notFound => simp [discoverLoop, Nat.not_le.mpr hcnt]
  | otherStatus => simp [discoverLoop, Nat.not_le.mpr hcnt]
  | fetchError => simp [discoverLoop, Nat.not_le.mpr hcnt]

theorem cntAfter_append (c : Nat) (l : List Resp) (r : Resp) :
    cntAfter c (l ++ [r]) = if isMiss r then cntAfter c l + 1 else 0 := by
  induction l generalizing c with
  | nil => rfl
  | cons x xs ih => simp [cntAfter, ih]

/-- The running counter started from zero equals the number of trailing
consecutive misses. -/
theorem cntAfter_zero_eq_trailingMisses (l : List Resp) :
    cntAfter 0 l = trailingMisses l := by
  induction l using List.reverseRecOn with
  | nil => rfl
  | append_singleton l r ih =>
    rw [cntAfter_append]
    unfold trailingMisses
    rw [List.reverse_append]
    simp only [List.reverse_singleton, List.singleton_append, List.takeWhile]
    cases hmiss : isMiss r with
    | true => simp [hmiss, ih, trailingMisses]
    | false => simp [hmiss]

/-- Core loop invariant: if `n` is the first prefix length at which the
running miss counter (started from `cnt`) reaches the threshold, the loop
consumes exactly that prefix and returns its collected publications,
regardless of what follows. -/
theorem discoverLoop_eq_collect (pub lang : String) (maxNF : Nat) :
    ∀ (rs : List Resp) (n cnt y m : Nat), cnt < maxNF → n ≤ rs.length →
      cntAfter cnt (rs.take n) = maxNF →
      (∀ k < n, cntAfter cnt (rs.take k) < maxNF) →
      discoverLoop pub lang maxNF cnt y m rs = collectPubs pub lang y m (rs.take n) := by
  intro rs
  induction rs with
  | nil =>
    intro n cnt y m hcnt hn hstop _
    have hn0 : n = 0 := Nat.le_zero.mp hn
    subst hn0
    simp [cntAfter] at hstop
    omega
  | cons r rest ih =>
    intro n cnt y m hcnt hn hstop hmin
    cases n with
    | zero =>
      simp [cntAfter] at hstop
      omega
    | succ n' =>
      rw [List.take_succ_cons] at hstop ⊢
      have hn' : n' ≤ rest.length := by
        simpa using hn
      cases r with
      | ok ld =>
        have hstop' : cntAfter 0 (rest.take n') = maxNF := by
          simpa [cntAfter, isMiss] using hstop
        have hmin' : ∀ k < n', cntAfter 0 (rest.take k) < maxNF := by
          intro k hk
          have h := hmin (k + 1) (by omega)
          rw [List.take_succ_cons] at h
          simpa [cntAfter, isMiss] using h
        have hrec := ih n' 0 (advanceIssue pub y m).1 (advanceIssue pub y m).2
          (by omega) hn' hstop' hmin'
        rw [discoverLoop_cons_ok pub lang maxNF cnt y m ld rest hcnt, hrec]
        cases ld with
        | some d => simp [collectPubs]
        | none => simp [collectPubs]
      | notFound =>
        rw [discoverLoop_cons_miss pub lang maxNF cnt y m Resp.notFound rest hcnt rfl]
        have hstop' : cntAfter (cnt + 1) (rest.take n') = maxNF := by
          simpa [cntAfter, isMiss] using hstop
        by_cases hcnt' : cnt + 1 < maxNF
        · have hmin' : ∀ k < n', cntAfter (cnt + 1) (rest.take k) < maxNF := by
            intro k hk
            have h := hmin (k + 1) (by omega)
            rw [List.take_succ_cons] at h
            simpa [cntAfter, isMiss] using h
          rw [ih n' (cnt + 1) (advanceIssue pub y m).1 (advanceIssue pub y m).2
            hcnt' hn' hstop' hmin']
          simp [collectPubs]
        · have hfull : maxNF ≤ cnt + 1 := by omega
          have hn0 : n' = 0 := by
            by_contra hne
            have h := hmin 1 (by omega)
            rw [List.take_succ_cons, List.take_zero] at h
            simp [cntAfter, isMiss] at h
            omega
          subst hn0
          simp [cntAfter] at hstop'
          rw [discoverLoop_stopped pub lang maxNF (cnt + 1) _ _ rest hfull]
          simp [collectPubs]
      | otherStatus =>
        rw [discoverLoop_cons_miss pub lang maxNF cnt y m Resp.otherStatus rest hcnt rfl]
        have hstop' : cntAfter (cnt + 1) (rest.take n') = maxNF := by
          simpa [cntAfter, isMiss] using hstop
        by_cases hcnt' : cnt + 1 < maxNF
        · have hmin' : ∀ k < n', cntAfter (cnt + 1) (rest.take k) < maxNF := by
            intro k hk
            have h := hmin (k + 1) (by omega)
            rw [List.take_succ_cons] at h
            simpa [cntAfter, isMiss] using h
          rw [ih n' (cnt + 1) (advanceIssue pub y m).1 (advanceIssue pub y m).2
            hcnt' hn' hstop' hmin']
          simp [collectPubs]
        · have hfull : maxNF ≤ cnt + 1 := by omega
          have hn0 : n' = 0 := by
            by_contra hne
            have h := hmin 1 (by omega)
            rw [List.take_succ_cons, List.take_zero] at h
            simp [cntAfter, isMiss] at h
            omega
          subst hn0
          simp [cntAfter] at hstop'
          rw [discoverLoop_stopped pub lang maxNF (cnt + 1) _ _ rest hfull]
          simp [collectPubs]
      | fetchError =>
        rw [discoverLoop_cons_miss pub lang maxNF cnt y m Resp.fetchError rest hcnt rfl]
        have hstop' : cntAfter (cnt + 1) (rest.take n') = maxNF := by
          simpa [cntAfter, isMiss] using hstop
        by_cases hcnt' : cnt + 1 < maxNF
        · have hmin' : ∀ k < n', cntAfter (cnt + 1) (rest.take k) < maxNF := by
            intro k hk
            have h := hmin (k + 1) (by omega)
            rw [List.take_succ_cons] at h
            simpa [cntAfter, isMiss] using h
          rw [ih n' (cnt + 1) (advanceIssue pub y m).1 (advanceIssue pub y m).2
            hcnt' hn' hstop' hmin']
          simp [collectPubs]
        · have hfull : maxNF ≤ cnt + 1 := by omega
          have hn0 : n' = 0 := by
            by_contra hne
            have h := hmin 1 (by omega)
            rw [List.take_succ_cons, List.take_zero] at h
            simp [cntAfter, isMiss] at h
            omega
          subst hn0
          simp [cntAfter] at hstop'
          rw [discoverLoop_stopped pub lang maxNF (cnt + 1) _ _ rest hfull]
          simp [collectPubs]

/-- C3: for every response sequence, the discovery loop stops iterating
after exactly `maxNotFound` consecutive non-success responses — a 404, any
other non-200 status, and a transport-level error each count as one miss
and none of them resets the counter (this is the content of `cntAfter`
agreeing with `trailingMisses`) — and returns the publications collected
from the consumed prefix, regardless of any responses that would follow.
`n` is the first prefix length showing `maxNotFound` consecutive trailing
misses. -/
theorem c3_discover_stops_at_maxNotFound (pub lang : String)
    (maxNF y m n : Nat) (rs : List Resp)
    (hpos : 0 < maxNF) (hn : n ≤ rs.length)
    (hstop : trailingMisses (rs.take n) = maxNF)
    (hmin : ∀ k < n, trailingMisses (rs.take k) < maxNF) :
    discoverLoop pub lang maxNF 0 y m rs = collectPubs pub lang y m (rs.take n) := by
  refine discoverLoop_eq_collect pub lang maxNF rs n 0 y m hpos hn ?_ ?_
  · rw [cntAfter_zero_eq_trailingMisses, hstop]
  · intro k hk
    rw [cntAfter_zero_eq_trailingMisses]
    exact hmin k hk

/-- Witness for C3 at a concrete input: threshold 2, one hit, one 200 with
no language entry, then an other-status miss followed by a transport-error
miss; the loop stops there and ignores the trailing hit. -/
theorem c3_witness :
    discoverLoop "w" "S" 2 0 2025 11
        [Resp.ok (some ⟨some "u", none⟩), Resp.ok none, Resp.otherStatus,
         Resp.fetchError, Resp.ok (some ⟨none, some "e"⟩)] =
      collectPubs "w" "S" 2025 11
        ([Resp.ok (some ⟨some "u", none⟩), Resp.ok none, Resp.otherStatus,
          Resp.fetchError, Resp.ok (some ⟨none, some "e"⟩)].take 4) :=
  c3_discover_stops_at_maxNotFound "w" "S" 2 2025 11 4
    [Resp.ok (some ⟨some "u", none⟩), Resp.ok none, Resp.otherStatus,
     Resp.fetchError, Resp.ok (some ⟨none, some "e"⟩)]
    (by decide) (by decide) (by decide) (by decide)

/-! ## Distinctness of issue tags (claim C7) -/

/-- Value of a little-endian decimal digit list. -/
def digitsVal : List Nat → Nat
  | [] => 0
  | d :: ds => d + 10 * digitsVal ds

theorem natDigitsAux_val : ∀ fuel n, n ≤ fuel → digitsVal (natDigitsAux fuel n) = n := by
  intro fuel
  induction fuel with
  | zero =>
    intro n hn
    have : n = 0 := Nat.le_zero.mp hn
    subst this
    rfl
  | succ f ih =>
    intro n hn
    cases n with
    | zero => rfl
    | succ k =>
      have hdiv : (k + 1) / 10 ≤ f := by
        have := Nat.div_lt_self (Nat.succ_pos k) (by norm_num : 1 < 10)
        omega
      show digitsVal (((k + 1) % 10) :: natDigitsAux f ((k + 1) / 10)) = k + 1
      simp only [digitsVal, ih _ hdiv]
      omega

theorem natDigitsAux_lt : ∀ fuel n, ∀ d ∈ natDigitsAux fuel n, d < 10 := by
  intro fuel
  induction fuel with
  | zero => intro n d hd; simp [natDigitsAux] at hd
  | succ f ih =>
    intro n d hd
    cases n with
    | zero => simp [natDigitsAux] at hd
    | succ k =>
      simp only [natDigitsAux, List.mem_cons] at hd
      rcases hd with h | h
      · omega
      · exact ih _ d h

theorem digitChar_inj_lt : ∀ a < 10, ∀ b < 10, Nat.digitChar a = Nat.digitChar b → a = b := by
  decide

theorem map_digitChar_inj :
    ∀ l1 l2 : List Nat, (∀ d ∈ l1, d < 10) → (∀ d ∈ l2, d < 10) →
      l1.map Nat.digitChar = l2.map Nat.digitChar → l1 = l2 := by
  intro l1
  induction l1 with
  | nil =>
    intro l2 _ _ h
    cases l2 with
    | nil => rfl
    | cons b bs => simp at h
  | cons a as ih =>
    intro l2 h1 h2 h
    cases l2 with
    | nil => simp at h
    | cons b bs =>
      simp only [List.map_cons, List.cons.injEq] at h
      have ha : a < 10 := h1 a (List.mem_cons_self a as)
      have hb : b < 10 := h2 b (List.mem_cons_self b bs)
      have hab : a = b := digitChar_inj_lt a ha b hb h.1
      have htl : as = bs :=
        ih bs (fun d hd => h1 d (List.mem_cons_of_mem a hd))
          (fun d hd => h2 d (List.mem_cons_of_mem b hd)) h.2
      rw [hab, htl]

theorem jsNatToString_inj_pos (x y : Nat) (hx : 1 ≤ x) (hy : 1 ≤ y)
    (h : jsNatToString x = jsNatToString y) : x = y := by
  unfold jsNatToString at h
  rw [if_neg (by omega), if_neg (by omega)] at h
  have hdata : (natDigitsAux x x).reverse.map Nat.digitChar =
      (natDigitsAux y y).reverse.map Nat.digitChar := by
    have := congrArg String.data h
    simpa using this
  have hrev : (natDigitsAux x x).reverse = (natDigitsAux y y).reverse := by
    refine map_digitChar_inj _ _ ?_ ?_ hdata
    · intro d hd
      exact natDigitsAux_lt x x d (List.mem_reverse.mp hd)
    · intro d hd
      exact natDigitsAux_lt y y d (List.mem_reverse.mp hd)
  have hdig : natDigitsAux x x = natDigitsAux y y := List.reverse_injective hrev
  have hx' := natDigitsAux_val x x (Nat.le_refl x)
  have hy' := natDigitsAux_val y y (Nat.le_refl y)
  rw [← hx', ← hy', hdig]

theorem padStart2_month_data_length :
    ∀ m < 13, (padStart2 (jsNatToString m)).data.length = 2 := by
  decide

theorem padStart2_month_inj :
    ∀ m1 < 13, ∀ m2 < 13,
      padStart2 (jsNatToString m1) = padStart2 (jsNatToString m2) → m1 = m2 := by
  decide

/-- Issue tags are injective over valid years and months. -/
theorem mkIssue_inj (y1 m1 y2 m2 : Nat) (hy1 : 1 ≤ y1) (hy2 : 1 ≤ y2)
    (hm1a : 1 ≤ m1) (hm1b : m1 ≤ 12) (hm2a : 1 ≤ m2) (hm2b : m2 ≤ 12)
    (h : mkIssue y1 m1 = mkIssue y2 m2) : y1 = y2 ∧ m1 = m2 := by
  unfold mkIssue at h
  have hdata := congrArg String.data h
  rw [String.data_append, String.data_append] at hdata
  have hlen : (padStart2 (jsNatToString m1)).data.length =
      (padStart2 (jsNatToString m2)).data.length := by
    rw [padStart2_month_data_length m1 (by omega), padStart2_month_data_length m2 (by omega)]
  obtain ⟨h1, h2⟩ := List.append_inj' hdata hlen
  constructor
  · refine jsNatToString_inj_pos y1 y2 hy1 hy2 ?_
    cases hx : jsNatToString y1
    cases hy : jsNatToString y2
    rw [hx, hy] at h1
    exact congrArg String.mk (by simpa [hx, hy] using h1)
  · refine padStart2_month_inj m1 (by omega) m2 (by omega) ?_
    cases hx : padStart2 (jsNatToString m1)
    cases hy : padStart2 (jsNatToString m2)
    rw [hx, hy] at h2
    exact congrArg String.mk (by simpa [hx, hy] using h2)

/-- Stepping the issue keeps the month in `1..12`, never decreases the year
and strictly increases the combined key `y * 100 + m`. -/
theorem advanceIssue_bounds (pub : String) (y m : Nat) (hm1 : 1 ≤ m) (hm2 : m ≤ 12) :
    1 ≤ (advanceIssue pub y m).2 ∧ (advanceIssue pub y m).2 ≤ 12 ∧
    y ≤ (advanceIssue pub y m).1 ∧
    y * 100 + m < (advanceIssue pub y m).1 * 100 + (advanceIssue pub y m).2 := by
  unfold advanceIssue
  by_cases hp : pub = "mwb" <;> simp only [hp, if_true, if_false, reduceIte] <;>
    split <;> simp <;> omega

/-- Every publication the loop emits carries an issue tag built from a
year/month pair whose key is at least the current one. -/
theorem discoverLoop_mem_issue (pub lang : String) (maxNF : Nat) :
    ∀ (rs : List Resp) (cnt y m : Nat), 1 ≤ y → 1 ≤ m → m ≤ 12 →
      ∀ p ∈ discoverLoop pub lang maxNF cnt y m rs,
        ∃ y' m', p.issue = mkIssue y' m' ∧ 1 ≤ y' ∧ 1 ≤ m' ∧ m' ≤ 12 ∧
          y * 100 + m ≤ y' * 100 + m' := by
  intro rs
  induction rs with
  | nil =>
    intro cnt y m _ _ _ p hp
    simp [discoverLoop] at hp
  | cons r rest ih =>
    intro cnt y m hy hm1 hm2 p hp
    by_cases hc : maxNF ≤ cnt
    · rw [discoverLoop_stopped pub lang maxNF cnt y m _ hc] at hp
      simp at hp
    · have hcnt : cnt < maxNF := by omega
      obtain ⟨hb1, hb2, hb3, hb4⟩ := advanceIssue_bounds pub y m hm1 hm2
      have hnext : ∀ q ∈ discoverLoop pub lang maxNF 0
          (advanceIssue pub y m).1 (advanceIssue pub y m).2 rest,
          ∃ y' m', q.issue = mkIssue y' m' ∧ 1 ≤ y' ∧ 1 ≤ m' ∧ m' ≤ 12 ∧
            y * 100 + m ≤ y' * 100 + m' := by
        intro q hq
        obtain ⟨y', m', hiss, h1, h2, h3, h4⟩ :=
          ih 0 (advanceIssue pub y m).1 (advanceIssue pub y m).2
            (by omega) hb1 hb2 q hq
        exact ⟨y', m', hiss, h1, h2, h3, by omega⟩
      have hnextMiss : ∀ c, ∀ q ∈ discoverLoop pub lang maxNF c
          (advanceIssue pub y m).1 (advanceIssue pub y m).2 rest,
          ∃ y' m', q.issue = mkIssue y' m' ∧ 1 ≤ y' ∧ 1 ≤ m' ∧ m' ≤ 12 ∧
            y * 100 + m ≤ y' * 100 + m' := by
        intro c q hq
        obtain ⟨y', m', hiss, h1, h2, h3, h4⟩ :=
          ih c (advanceIssue pub y m).1 (advanceIssue pub y m).2
            (by omega) hb1 hb2 q hq
        exact ⟨y', m', hiss, h1, h2, h3, by omega⟩
      cases r with
      | ok ld =>
        rw [discoverLoop_cons_ok pub lang maxNF cnt y m ld rest hcnt] at hp
        rw [List.mem_append] at hp
        rcases hp with hhead | htail
        · cases ld with
          | some d =>
            simp only [List.mem_singleton] at hhead
            subst hhead
            exact ⟨y, m, rfl, hy, hm1, hm2, Nat.le_refl _⟩
          | none => simp at hhead
        · exact hnext p htail
      | notFound =>
        rw [discoverLoop_cons_miss pub lang maxNF cnt y m Resp.notFound rest hcnt rfl] at hp
        exact hnextMiss (cnt + 1) p hp
      | otherStatus =>
        rw [discoverLoop_cons_miss pub lang maxNF cnt y m Resp.otherStatus rest hcnt rfl] at hp
        exact hnextMiss (cnt + 1) p hp
      | fetchError =>
        rw [discoverLoop_cons_miss pub lang maxNF cnt y m Resp.fetchError rest hcnt rfl] at hp
        exact hnextMiss (cnt + 1) p hp

/-- The loop never emits two publications with the same issue tag. -/
theorem discoverLoop_issues_pairwise (pub lang : String) (maxNF : Nat) :
    ∀ (rs : List Resp) (cnt y m : Nat), 1 ≤ y → 1 ≤ m → m ≤ 12 →
      (discoverLoop pub lang maxNF cnt y m rs).Pairwise
        (fun p q => p.issue ≠ q.issue) := by
  intro rs
  induction rs with
  | nil =>
    intro cnt y m _ _ _
    simp [discoverLoop]
  | cons r rest ih =>
    intro cnt y m hy hm1 hm2
    by_cases hc : maxNF ≤ cnt
    · rw [discoverLoop_stopped pub lang maxNF cnt y m _ hc]
      exact List.Pairwise.nil
    · have hcnt : cnt < maxNF := by omega
      obtain ⟨hb1, hb2, hb3, hb4⟩ := advanceIssue_bounds pub y m hm1 hm2
      have htail : ∀ c, (discoverLoop pub lang maxNF c
          (advanceIssue pub y m).1 (advanceIssue pub y m).2 rest).Pairwise
          (fun p q => p.issue ≠ q.issue) :=
        fun c => ih c (advanceIssue pub y m).1 (advanceIssue pub y m).2 (by omega) hb1 hb2
      cases r with
      | ok ld =>
        rw [discoverLoop_cons_ok pub lang maxNF cnt y m ld rest hcnt]
        cases ld with
        | some d =>
          simp only [List.singleton_append, List.pairwise_cons]
          refine ⟨?_, htail 0⟩
          intro q hq heq
          obtain ⟨y', m', hiss, h1, h2, h3, h4⟩ :=
            discoverLoop_mem_issue pub lang maxNF rest 0
              (advanceIssue pub y m).1 (advanceIssue pub y m).2 (by omega) hb1 hb2 q hq
          rw [hiss] at heq
          obtain ⟨hyy, hmm⟩ := mkIssue_inj y m y' m' hy h1 hm1 hm2 h2 h3 heq
          omega
        | none =>
          simpa using htail 0
      | notFound =>
        rw [discoverLoop_cons_miss pub lang maxNF cnt y m Resp.notFound rest hcnt rfl]
        exact htail (cnt + 1)
      | otherStatus =>
        rw [discoverLoop_cons_miss pub lang maxNF cnt y m Resp.otherStatus rest hcnt rfl]
        exact htail (cnt + 1)
      | fetchError =>
        rw [discoverLoop_cons_miss pub lang maxNF cnt y m Resp.fetchError rest hcnt rfl]
        exact htail (cnt + 1)

/-- C7: for every sequence of responses (and any starting month of the real
clock), the list returned by `discover` contains no two entries with the
same `(pub, issue, language)` triple: all entries share `pub` and
`language`, and the issue tags are pairwise distinct because the issue key
strictly increases at every iteration. -/
theorem c7_discover_no_duplicate_triples (pub lang : String) (startMonth : Nat)
    (rs : List Resp) (h1 : 1 ≤ startMonth) (h2 : startMonth ≤ 12) :
    (discover pub lang startMonth rs).Pairwise
      (fun p q => ¬ (p.pub = q.pub ∧ p.issue = q.issue ∧ p.language = q.language)) := by
  unfold discover
  have hm1 : 1 ≤ (if pub = "mwb" ∧ startMonth % 2 = 0 then startMonth - 1 else startMonth) := by
    split <;> omega
  have hm2 : (if pub = "mwb" ∧ startMonth % 2 = 0 then startMonth - 1 else startMonth) ≤ 12 := by
    split <;> omega
  have hpair := discoverLoop_issues_pairwise pub lang 1 rs 0 2025 _ (by omega) hm1 hm2
  exact hpair.imp fun h hx => h hx.2.1

/-- Witness for C7 at a concrete input: `mwb` starting from an even month,
two hits (bimonthly stepping) and a stop. -/
theorem c7_witness :
    1 ≤ 10 ∧ 10 ≤ 12 ∧
    (discover "mwb" "S" 10
        [Resp.ok (some ⟨some "a", none⟩), Resp.ok (some ⟨none, none⟩),
         Resp.notFound]).Pairwise
      (fun p q => ¬ (p.pub = q.pub ∧ p.issue = q.issue ∧ p.language = q.language)) :=
  ⟨by decide, by decide,
    c7_discover_no_duplicate_triples "mwb" "S" 10
      [Resp.ok (some ⟨some "a", none⟩), Resp.ok (some ⟨none, none⟩), Resp.notFound]
      (by decide) (by decide)⟩

/-- C9: a `200` response whose body has no entry for the requested language
emits no publication for that issue, still resets the consecutive-miss
counter to zero and advances to the next issue — the loop continues exactly
as a success with nothing to collect, and no later entry can carry the
skipped issue tag. -/
theorem c9_ok_missing_language (pub lang : String) (maxNF cnt y m : Nat)
    (rest : List Resp) (hcnt : cnt < maxNF) (hy : 1 ≤ y) (hm1 : 1 ≤ m) (hm2 : m ≤ 12) :
    discoverLoop pub lang maxNF cnt y m (Resp.ok none :: rest) =
      discoverLoop pub lang maxNF 0 (advanceIssue pub y m).1 (advanceIssue pub y m).2 rest ∧
    ∀ p ∈ discoverLoop pub lang maxNF cnt y m (Resp.ok none :: rest),
      p.issue ≠ mkIssue y m := by
  have heq := discoverLoop_cons_ok pub lang maxNF cnt y m none rest hcnt
  simp only [List.nil_append] at heq
  refine ⟨heq, ?_⟩
  intro p hp heqiss
  rw [heq] at hp
  obtain ⟨hb1, hb2, hb3, hb4⟩ := advanceIssue_bounds pub y m hm1 hm2
  obtain ⟨y', m', hiss, hy', hm1', hm2', hkey⟩ :=
    discoverLoop_mem_issue pub lang maxNF rest 0
      (advanceIssue pub y m).1 (advanceIssue pub y m).2 (by omega) hb1 hb2 p hp
  have hii : mkIssue y' m' = mkIssue y m := by rw [← hiss, heqiss]
  obtain ⟨hyy, hmm⟩ := mkIssue_inj y' m' y m hy' hy hm1' hm2' hm1 hm2 hii
  omega

/-- Witness for C9 at a concrete input. -/
theorem c9_witness :
    discoverLoop "x" "S" 1 0 2025 12 (Resp.ok none :: [Resp.notFound]) =
      discoverLoop "x" "S" 1 0 (advanceIssue "x" 2025 12).1
        (advanceIssue "x" 2025 12).2 [Resp.notFound] ∧
    ∀ p ∈ discoverLoop "x" "S" 1 0 2025 12 (Resp.ok none :: [Resp.notFound]),
      p.issue ≠ mkIssue 2025 12 :=
  c9_ok_missing_language "x" "S" 1 0 2025 12 [Resp.notFound]
    (by decide) (by decide) (by decide) (by decide)

/-! ## `ParsingService.parseDocument` (src/unnamed/part_011).

The service parses HTML with `node-html-parser`, walks anchors and images,
rewrites image attributes in place and serializes the mutated tree.  The
DOM is embedded as a mutual inductive of nodes and node lists; the parser
is a tolerant tokenizer plus a stack builder modelling the library's
best-effort behaviour (void elements take no children, unmatched close
tags are ignored, unclosed elements are closed at end of input). -/

mutual
inductive HNode where
  | text (s : String) : HNode
  | elem (tag : String) (attrs : List (String × String)) (children : HNodeList) : HNode
deriving DecidableEq
inductive HNodeList where
  | hnil : HNodeList
  | hcons (hd : HNode) (tl : HNodeList) : HNodeList
deriving DecidableEq
end


/-- JavaScript `s.split(sep)` for a single-character separator, on char
lists (keeps empty segments, as the JavaScript method does). -/
def splitOnChar (sep : Char) : List Char → List (List Char)
  | [] => [[]]
  | c :: rest =>
    let r := splitOnChar sep rest
    if c = sep then [] :: r
    else
      match r with
      | [] => [[c]]
      | h :: t => (c :: h) :: t

/-- JavaScript `s.split(sep)` for a single-character separator. -/
def jsSplitChar (s : String) (sep : Char) : List String :=
  (splitOnChar sep s.data).map String.mk

/-- JavaScript `s.trim()` (whitespace from both ends). -/
def jsTrim (s : String) : String :=
  String.mk (((s.data.dropWhile Char.isWhitespace).reverse.dropWhile
    Char.isWhitespace).reverse)

/-- JavaScript `s.startsWith(p)`. -/
def strStartsWith (s p : String) : Bool :=
  p.data.isPrefixOf s.data

/-- Join strings with single spaces (`Array.prototype.join(' ')`). -/
def joinSpace : List String → String
  | [] => ""
  | [x] => x
  | x :: rest => x ++ " " ++ joinSpace rest

/-- `getAttribute`: first value stored under a name. -/
def getAttrL : List (String × String) → String → Option String
  | [], _ => none
  | (k, v) :: rest, name => if k = name then some v else getAttrL rest name

/-- `setAttribute`: update an existing attribute in place, else append. -/
def setAttrL : List (String × String) → String → String → List (String × String)
  | [], name, v => [(name, v)]
  | (k, w) :: rest, name, v =>
    if k = name then (k, v) :: rest else (k, w) :: setAttrL rest name v

/-- `removeAttribute`. -/
def removeAttrL : List (String × String) → String → List (String × String)
  | [], _ => []
  | (k, w) :: rest, name =>
    if k = name then removeAttrL rest name else (k, w) :: removeAttrL rest name

/-- `classList.add`: parse the class attribute into whitespace-separated
tokens, append the class if absent. -/
def classListAdd (attrs : List (String × String)) (cls : String) :
    List (String × String) :=
  match getAttrL attrs "class" with
  | none => setAttrL attrs "class" cls
  | some v =>
    let toks := (jsSplitChar v ' ').filter (fun t => ¬ t = "")
    if cls ∈ toks then attrs
    else setAttrL attrs "class" (joinSpace (toks ++ [cls]))

/-- JavaScript `s.replace(pat, rep)` with a string pattern: replace the
first occurrence only. -/
def replaceFirstGo (pat rep : List Char) : Nat → List Char → List Char → List Char
  | 0, seen, cs => seen.reverse ++ cs
  | fuel + 1, seen, cs =>
    if pat.isPrefixOf cs then seen.reverse ++ rep ++ cs.drop pat.length
    else
      match cs with
      | [] => seen.reverse
      | c :: rest => replaceFirstGo pat rep fuel (c :: seen) rest

/-- JavaScript `s.replace(pat, rep)` (string pattern, first occurrence). -/
def replaceFirst (s pat rep : String) : String :=
  if pat = "" then rep ++ s
  else String.mk (replaceFirstGo pat.data rep.data (s.data.length + 1) [] s.data)

/-- Lowercasing used for tag and attribute names. -/
def lowerStr (cs : List Char) : String :=
  String.mk (cs.map Char.toLower)

/-- Characters allowed in tag/attribute names. -/
def isNameChar (c : Char) : Bool :=
  c.isAlphanum ∨ c = '-' ∨ c = ':'

/-- HTML tokens. -/
inductive HTok where
  | ttext (s : String)
  | topen (tag : String) (attrs : List (String × String)) (selfClose : Bool)
  | tclose (tag : String)
deriving DecidableEq

/-- Lex the attribute region of an open tag up to and including `>`. -/
def lexAttrs : Nat → List Char → List (String × String) × Bool × List Char
  | 0, cs => ([], false, cs)
  | fuel + 1, cs =>
    match cs with
    | [] => ([], false, [])
    | '>' :: rest => ([], false, rest)
    | '/' :: '>' :: rest => ([], true, rest)
    | c :: rest =>
      if c.isWhitespace then lexAttrs fuel rest
      else
        let stopName := fun (x : Char) => x.isWhitespace ∨ x = '=' ∨ x = '>' ∨ x = '/'
        let nameChars := (c :: rest).takeWhile (fun x => ¬ stopName x)
        let afterName := ((c :: rest).dropWhile (fun x => ¬ stopName x)).dropWhile
          Char.isWhitespace
        match afterName with
        | '=' :: r2 =>
          let r3 := r2.dropWhile Char.isWhitespace
          match r3 with
          | '"' :: r4 =>
            let v := r4.takeWhile (fun x => ¬ x = '"')
            let r5 := (r4.dropWhile (fun x => ¬ x = '"')).drop 1
            let (as, sc, rest') := lexAttrs fuel r5
            ((lowerStr nameChars, String.mk v) :: as, sc, rest')
          | '\'' :: r4 =>
            let v := r4.takeWhile (fun x => ¬ x = '\'')
            let r5 := (r4.dropWhile (fun x => ¬ x = '\'')).drop 1
            let (as, sc, rest') := lexAttrs fuel r5
            ((lowerStr nameChars, String.mk v) :: as, sc, rest')
          | _ =>
            let stopVal := fun (x : Char) => x.isWhitespace ∨ x = '>'
            let v := r3.takeWhile (fun x => ¬ stopVal x)
            let r5 := r3.dropWhile (fun x => ¬ stopVal x)
            let (as, sc, rest') := lexAttrs fuel r5
            ((lowerStr nameChars, String.mk v) :: as, sc, rest')
        | _ =>
          let (as, sc, rest') := lexAttrs fuel afterName
          ((lowerStr nameChars, "") :: as, sc, rest')

/-- Tokenize an HTML text. -/
def lexHtml : Nat → List Char → List HTok
  | 0, _ => []
  | _ + 1, [] => []
  | fuel + 1, '<' :: '/' :: rest =>
    let name := (rest.takeWhile (fun x => ¬ x = '>')).takeWhile isNameChar
    let rest' := (rest.dropWhile (fun x => ¬ x = '>')).drop 1
    HTok.tclose (lowerStr name) :: lexHtml fuel rest'
  | fuel + 1, '<' :: '!' :: rest =>
    lexHtml fuel ((rest.dropWhile (fun x => ¬ x = '>')).drop 1)
  | fuel + 1, '<' :: c :: rest =>
    if c.isAlpha then
      let nameChars := (c :: rest).takeWhile isNameChar
      let afterName := (c :: rest).dropWhile isNameChar
      let att := lexAttrs afterName.length afterName
      HTok.topen (lowerStr nameChars) att.1 att.2.1 :: lexHtml fuel att.2.2
    else
      HTok.ttext "<" :: lexHtml fuel (c :: rest)
  | _ + 1, ['<'] => [HTok.ttext "<"]
  | fuel + 1, c :: rest =>
    let t := (c :: rest).takeWhile (fun x => ¬ x = '<')
    HTok.ttext (String.mk t) :: lexHtml fuel ((c :: rest).dropWhile (fun x => ¬ x = '<'))

/-- Void elements: no children, no close tag. -/
def voidTags : List String :=
  ["area", "base", "br", "col", "embed", "hr", "img", "input", "link", "meta",
   "param", "source", "track", "wbr"]

/-- An open element still awaiting its close tag. -/
structure HFrame where
  tag : String
  attrs : List (String × String)
  revChildren : List HNode
deriving DecidableEq

def toHNodeList : List HNode → HNodeList
  | [] => .hnil
  | n :: ns => .hcons n (toHNodeList ns)

def closeHFrame (f : HFrame) : HNode :=
  .elem f.tag f.attrs (toHNodeList f.revChildren.reverse)

/-- Attach a finished node to the innermost open frame, or to the top level. -/
def pushNode (n : HNode) : List HFrame × List HNode → List HFrame × List HNode
  | ([], top) => ([], n :: top)
  | (f :: fs, top) => ({ f with revChildren := n :: f.revChildren } :: fs, top)

/-- Close the innermost open frame. -/
def popFrame : List HFrame × List HNode → List HFrame × List HNode
  | ([], top) => ([], top)
  | (f :: fs, top) => pushNode (closeHFrame f) (fs, top)

/-- Close frames up to and including the first one with the given tag. -/
def popUntilTag (t : String) : Nat → List HFrame × List HNode → List HFrame × List HNode
  | 0, st => st
  | fuel + 1, st =>
    match st with
    | ([], top) => ([], top)
    | (f :: fs, top) =>
      if f.tag = t then popFrame (f :: fs, top)
      else popUntilTag t fuel (popFrame (f :: fs, top))

/-- One token of the stack builder. -/
def buildStep (st : List HFrame × List HNode) : HTok → List HFrame × List HNode
  | HTok.ttext s => pushNode (.text s) st
  | HTok.topen tag attrs sc =>
    if sc ∨ tag ∈ voidTags then pushNode (.elem tag attrs .hnil) st
    else ({ tag := tag, attrs := attrs, revChildren := [] } :: st.1, st.2)
  | HTok.tclose tag =>
    if st.1.any (fun f => f.tag = tag) then popUntilTag tag st.1.length st
    else st

/-- Close every frame still open at end of input. -/
def closeAll : Nat → List HFrame × List HNode → List HNode
  | 0, st => st.2.reverse
  | fuel + 1, st =>
    match st.1 with
    | [] => st.2.reverse
    | _ :: _ => closeAll fuel (popFrame st)

/-- Best-effort HTML parse into a list of top-level nodes (the children of
the library's synthetic root element). -/
def parseHtml (s : String) : List HNode :=
  let toks := lexHtml s.data.length s.data
  let st := toks.foldl buildStep ([], [])
  closeAll st.1.length st

mutual
/-- `querySelectorAll` by tag name on one node, in document order. -/
def selectAllN (t : String) : HNode → List HNode
  | .text _ => []
  | .elem tag attrs ch =>
    (if tag = t then [HNode.elem tag attrs ch] else []) ++ selectAllL t ch
/-- `querySelectorAll` by tag name on a node list, in document order. -/
def selectAllL (t : String) : HNodeList → List HNode
  | .hnil => []
  | .hcons n ns => selectAllN t n ++ selectAllL t ns
end

mutual
/-- `textContent` of one node. -/
def textContentN : HNode → String
  | .text s => s
  | .elem _ _ ch => textContentL ch
/-- `textContent` of a node list. -/
def textContentL : HNodeList → String
  | .hnil => ""
  | .hcons n ns => textContentN n ++ textContentL ns
end

def serializeAttrs : List (String × String) → String
  | [] => ""
  | (k, v) :: rest => " " ++ k ++ "=\"" ++ v ++ "\"" ++ serializeAttrs rest

mutual
/-- `toString` of one node. -/
def serializeN : HNode → String
  | .text s => s
  | .elem tag attrs ch =>
    "<" ++ tag ++ serializeAttrs attrs ++ ">" ++ serializeL ch ++
      (if tag ∈ voidTags then "" else "</" ++ tag ++ ">")
/-- `toString` of a node list. -/
def serializeL : HNodeList → String
  | .hnil => ""
  | .hcons n ns => serializeN n ++ serializeL ns
end

/-- Reference kinds (`ExtractedReference.type`). -/
inductive RefType where
  | bible
  | publication
  | video
deriving DecidableEq

/-- `ExtractedReference` of the source (the optional `metadata` field is
never set by `parseDocument` and is omitted). -/
structure ExtractedReference where
  type : RefType
  link : String
  text : String
deriving DecidableEq

/-- Asset kinds (`ExtractedAsset.type`). -/
inductive AssetType where
  | image
  | video
deriving DecidableEq

/-- `ExtractedAsset` of the source (the optional `multimediaId` field is
never set by `parseDocument` and is omitted). -/
structure ExtractedAsset where
  fileName : String
  altText : String
  type : AssetType
deriving DecidableEq

/-- `StructuredContent` of the source. -/
structure StructuredContent where
  id : String
  title : String
  references : List ExtractedReference
  assets : List ExtractedAsset
  html : String
  paragraphs : List String
deriving DecidableEq

/-- `getAttribute` on a node. -/
def attrOfN : HNode → String → Option String
  | .text _, _ => none
  | .elem _ attrs _, name => getAttrL attrs name

/-- The file name computed for an `<img>`:
`src.replace('jwpub-media://', '').split('/').pop() || src`. -/
def jsFileName (src : String) : String :=
  match (jsSplitChar (replaceFirst src "jwpub-media://" "") '/').getLast? with
  | some t => if t = "" then src else t
  | none => src

/-- The in-place rewriting applied to every `<img>`: set `src` to
`./assets/<fileName>`, drop `width` and `height`, add the `jw-image`
class. -/
def rewriteImgAttrs (attrs : List (String × String)) : List (String × String) :=
  let src := (getAttrL attrs "src").getD ""
  let fileName := jsFileName src
  classListAdd
    (removeAttrL (removeAttrL (setAttrL attrs "src" ("./assets/" ++ fileName))
      "width") "height")
    "jw-image"

mutual
/-- The tree after `parseDocument`'s image mutation pass. -/
def transformN : HNode → HNode
  | .text s => .text s
  | .elem tag attrs ch =>
    if tag = "img" then .elem tag (rewriteImgAttrs attrs) (transformL ch)
    else .elem tag attrs (transformL ch)
/-- Image mutation pass over a node list. -/
def transformL : HNodeList → HNodeList
  | .hnil => .hnil
  | .hcons n ns => .hcons (transformN n) (transformL ns)
end

/-- References contributed by one anchor, in the order the source pushes
them (a `bible://` or `jwpub://` href first, then a video from `href` or
`data-video`). -/
def refsOfAnchor (a : HNode) : List ExtractedReference :=
  let href := (attrOfN a "href").getD ""
  let dataVideo := (attrOfN a "data-video").getD ""
  let text := jsTrim (textContentN a)
  (if strStartsWith href "bible://" then [⟨RefType.bible, href, text⟩]
   else if strStartsWith href "jwpub://" then [⟨RefType.publication, href, text⟩]
   else []) ++
  (if strStartsWith href "webpubvid://" ∨ strStartsWith dataVideo "webpubvid://" then
    [⟨RefType.video, if dataVideo = "" then href else dataVideo,
      if text = "" then "Video" else text⟩]
   else [])

/-- The asset recorded for one `<img>` (from its original attributes). -/
def assetOfImg (n : HNode) : ExtractedAsset :=
  ⟨jsFileName ((attrOfN n "src").getD ""), (attrOfN n "alt").getD "", AssetType.image⟩

/-- JavaScript `a || b` on strings. -/
def jsOrString (a b : String) : String := if a = "" then b else a

/-- Trimmed text of the first element with the given tag, or the empty
string (which is what the `?.`/`||` chain of the source turns a missing
element into). -/
def firstTagText (t : String) (roots : List HNode) : String :=
  match (roots.flatMap (selectAllN t)).head? with
  | some n => jsTrim (textContentN n)
  | none => ""

/-- `ParsingService.parseDocument`, translated step for step: title from
the first `h1` else `h2`; references from all anchors; image assets and
in-place `src` rewriting; video references appended to the assets; the
mutated tree serialized back to text; trimmed non-empty paragraph texts. -/
def parseDocument (html : String) (docId : String) : StructuredContent :=
  let roots := parseHtml html
  let title := jsOrString (firstTagText "h1" roots) (firstTagText "h2" roots)
  let references := (roots.flatMap (selectAllN "a")).flatMap refsOfAnchor
  let imgs := roots.flatMap (selectAllN "img")
  let assets := imgs.map assetOfImg ++
    (references.filter (fun r => r.type = RefType.video)).map
      (fun v => ⟨v.link, v.text, AssetType.video⟩)
  let roots' := roots.map transformN
  let paragraphs := ((roots'.flatMap (selectAllN "p")).map
    (fun p => jsTrim (textContentN p))).filter (fun t => 0 < t.length)
  { id := docId, title := title, references := references, assets := assets,
    html := String.join (roots'.map serializeN), paragraphs := paragraphs }

theorem getAttrL_setAttrL_self (attrs : List (String × String)) (k v : String) :
    getAttrL (setAttrL attrs k v) k = some v := by
  induction attrs with
  | nil => simp [setAttrL, getAttrL]
  | cons p rest ih =>
    obtain ⟨a, b⟩ := p
    by_cases h : a = k
    · simp [setAttrL, getAttrL, h]
    · simp [setAttrL, getAttrL, h, ih]

theorem getAttrL_setAttrL_ne (attrs : List (String × String)) (k v k' : String)
    (h : ¬ k' = k) : getAttrL (setAttrL attrs k v) k' = getAttrL attrs k' := by
  have h' : ¬ k = k' := fun he => h he.symm
  induction attrs with
  | nil => simp [setAttrL, getAttrL, h']
  | cons p rest ih =>
    obtain ⟨a, b⟩ := p
    by_cases ha : a = k
    · subst ha
      simp [setAttrL, getAttrL, h']
    · simp [setAttrL, getAttrL, ha, ih]

theorem getAttrL_removeAttrL_self (attrs : List (String × String)) (k : String) :
    getAttrL (removeAttrL attrs k) k = none := by
  induction attrs with
  | nil => simp [removeAttrL, getAttrL]
  | cons p rest ih =>
    obtain ⟨a, b⟩ := p
    by_cases h : a = k
    · simp [removeAttrL, h, ih]
    · simp [removeAttrL, getAttrL, h, ih]

theorem getAttrL_removeAttrL_ne (attrs : List (String × String)) (k k' : String)
    (h : ¬ k' = k) : getAttrL (removeAttrL attrs k) k' = getAttrL attrs k' := by
  have h' : ¬ k = k' := fun he => h he.symm
  induction attrs with
  | nil => simp [removeAttrL]
  | cons p rest ih =>
    obtain ⟨a, b⟩ := p
    by_cases ha : a = k
    · subst ha
      simp [removeAttrL, getAttrL, h', ih]
    · simp [removeAttrL, getAttrL, ha, ih]

theorem getAttrL_classListAdd_ne (attrs : List (String × String)) (cls k : String)
    (h : ¬ k = "class") : getAttrL (classListAdd attrs cls) k = getAttrL attrs k := by
  unfold classListAdd
  cases hcl : getAttrL attrs "class" with
  | none => exact getAttrL_setAttrL_ne attrs "class" cls k h
  | some v =>
    dsimp only
    split
    · rfl
    · exact getAttrL_setAttrL_ne attrs "class" _ k h

/-- The rewritten `src` of an image in terms of its original `src`. -/
theorem rewriteImgAttrs_src (attrs : List (String × String)) :
    getAttrL (rewriteImgAttrs attrs) "src" =
      some ("./assets/" ++ jsFileName ((getAttrL attrs "src").getD "")) := by
  unfold rewriteImgAttrs
  rw [getAttrL_classListAdd_ne _ _ _ (by decide),
    getAttrL_removeAttrL_ne _ _ _ (by decide),
    getAttrL_removeAttrL_ne _ _ _ (by decide),
    getAttrL_setAttrL_self]

/-- The rewriting strips the `width` attribute. -/
theorem rewriteImgAttrs_width (attrs : List (String × String)) :
    getAttrL (rewriteImgAttrs attrs) "width" = none := by
  unfold rewriteImgAttrs
  rw [getAttrL_classListAdd_ne _ _ _ (by decide),
    getAttrL_removeAttrL_ne _ _ _ (by decide),
    getAttrL_removeAttrL_self]

/-- The rewriting strips the `height` attribute. -/
theorem rewriteImgAttrs_height (attrs : List (String × String)) :
    getAttrL (rewriteImgAttrs attrs) "height" = none := by
  unfold rewriteImgAttrs
  rw [getAttrL_classListAdd_ne _ _ _ (by decide),
    getAttrL_removeAttrL_self]

mutual
/-- The image pass commutes with tag selection: selecting after the pass
yields exactly the transformed selected nodes, in order. -/
theorem selectAll_transformN (t : String) (n : HNode) :
    selectAllN t (transformN n) = (selectAllN t n).map transformN := by
  cases n with
  | text s => rfl
  | elem tag attrs ch =>
    by_cases htag : tag = "img"
    · subst htag
      by_cases ht : "img" = t
      · subst ht
        simp [transformN, selectAllN, selectAll_transformL "img" ch]
      · simp [transformN, selectAllN, ht, selectAll_transformL t ch]
    · by_cases ht : tag = t
      · subst ht
        simp [transformN, selectAllN, htag, selectAll_transformL tag ch]
      · simp [transformN, selectAllN, htag, ht, selectAll_transformL t ch]
theorem selectAll_transformL (t : String) (ns : HNodeList) :
    selectAllL t (transformL ns) = (selectAllL t ns).map transformN := by
  cases ns with
  | hnil => rfl
  | hcons n rest =>
    simp [transformL, selectAllL, selectAll_transformN t n, selectAll_transformL t rest]
end

/-- List-level corollary of the commutation lemma, over the root list. -/
theorem selectAll_transform_roots (t : String) (roots : List HNode) :
    (roots.map transformN).flatMap (selectAllN t) =
      (roots.flatMap (selectAllN t)).map transformN := by
  induction roots with
  | nil => rfl
  | cons n rest ih =>
    simp [List.flatMap_cons, selectAll_transformN t n, ih]

/-- The `assets` field of `parseDocument`, unfolded. -/
theorem parseDocument_assets (html docId : String) :
    (parseDocument html docId).assets =
      ((parseHtml html).flatMap (selectAllN "img")).map assetOfImg ++
        ((((parseHtml html).flatMap (selectAllN "a")).flatMap refsOfAnchor).filter
          (fun r => r.type = RefType.video)).map
            (fun v => ⟨v.link, v.text, AssetType.video⟩) := rfl

/-- The `references` field of `parseDocument`, unfolded. -/
theorem parseDocument_references (html docId : String) :
    (parseDocument html docId).references =
      ((parseHtml html).flatMap (selectAllN "a")).flatMap refsOfAnchor := rfl

/-- The `html` field of `parseDocument` is the serialization of the
transformed tree. -/
theorem parseDocument_html (html docId : String) :
    (parseDocument html docId).html =
      String.join (((parseHtml html).map transformN).map serializeN) := rfl

/-- An `<img>` element is transformed by rewriting its attributes (and
passing over its — necessarily empty — children). -/
theorem transformN_img (attrs : List (String × String)) (ch : HNodeList) :
    transformN (HNode.elem "img" attrs ch) =
      HNode.elem "img" (rewriteImgAttrs attrs) (transformL ch) := by
  simp [transformN]

theorem jsFileName_jwpub_zjpg : jsFileName "jwpub-media://x/y/z.jpg" = "z.jpg" := by
  decide

theorem jsFileName_empty : jsFileName "" = "" := by decide

/-- C5: for every HTML input, every `<img>` element whose `src` attribute
is `jwpub-media://x/y/z.jpg` contributes an asset `{fileName: "z.jpg",
altText: alt attribute, kind: image}` to the returned asset list, and in
the tree whose serialization is the returned `html` the corresponding
element has `src` rewritten to `./assets/z.jpg` with its `width` and
`height` attributes removed. -/
theorem c5_img_rewrite (html docId : String) (attrs : List (String × String))
    (ch : HNodeList)
    (hmem : HNode.elem "img" attrs ch ∈ (parseHtml html).flatMap (selectAllN "img"))
    (hsrc : getAttrL attrs "src" = some "jwpub-media://x/y/z.jpg") :
    (⟨"z.jpg", (getAttrL attrs "alt").getD "", AssetType.image⟩ : ExtractedAsset) ∈
      (parseDocument html docId).assets ∧
    (parseDocument html docId).html =
      String.join (((parseHtml html).map transformN).map serializeN) ∧
    transformN (HNode.elem "img" attrs ch) ∈
      ((parseHtml html).map transformN).flatMap (selectAllN "img") ∧
    attrOfN (transformN (HNode.elem "img" attrs ch)) "src" = some "./assets/z.jpg" ∧
    attrOfN (transformN (HNode.elem "img" attrs ch)) "width" = none ∧
    attrOfN (transformN (HNode.elem "img" attrs ch)) "height" = none := by
  have hasset : assetOfImg (HNode.elem "img" attrs ch) =
      ⟨"z.jpg", (getAttrL attrs "alt").getD "", AssetType.image⟩ := by
    unfold assetOfImg
    simp only [attrOfN, hsrc, Option.getD_some, jsFileName_jwpub_zjpg]
  refine ⟨?_, parseDocument_html html docId, ?_, ?_, ?_, ?_⟩
  · rw [parseDocument_assets]
    refine List.mem_append_left _ ?_
    rw [← hasset]
    exact List.mem_map_of_mem assetOfImg hmem
  · rw [selectAll_transform_roots]
    exact List.mem_map_of_mem transformN hmem
  · rw [transformN_img]
    show getAttrL (rewriteImgAttrs attrs) "src" = some "./assets/z.jpg"
    rw [rewriteImgAttrs_src, hsrc]
    simp only [Option.getD_some, jsFileName_jwpub_zjpg]
    rfl
  · rw [transformN_img]
    exact rewriteImgAttrs_width attrs
  · rw [transformN_img]
    exact rewriteImgAttrs_height attrs

/-- Witness for C5 at a concrete input. -/
theorem c5_witness :
    (HNode.elem "img" [("src", "jwpub-media://x/y/z.jpg"), ("alt", "pic"), ("width", "5")]
        HNodeList.hnil ∈
      (parseHtml "<p><img src=\"jwpub-media://x/y/z.jpg\" alt=\"pic\" width=\"5\"></p>").flatMap
        (selectAllN "img")) ∧
    (⟨"z.jpg", "pic", AssetType.image⟩ : ExtractedAsset) ∈
      (parseDocument "<p><img src=\"jwpub-media://x/y/z.jpg\" alt=\"pic\" width=\"5\"></p>" "d").assets := by
  have h := c5_img_rewrite
    "<p><img src=\"jwpub-media://x/y/z.jpg\" alt=\"pic\" width=\"5\"></p>" "d"
    [("src", "jwpub-media://x/y/z.jpg"), ("alt", "pic"), ("width", "5")] HNodeList.hnil
    (by decide) (by decide)
  exact ⟨by decide, h.1⟩

/-- C10: for every HTML input, every `<img>` with a missing or empty `src`
is handled without failure: the asset list gains an entry with the empty
file name (and the element's `alt` text), and the element's `src` is
rewritten to the literal `./assets/`. -/
theorem c10_img_empty_src (html docId : String) (attrs : List (String × String))
    (ch : HNodeList)
    (hmem : HNode.elem "img" attrs ch ∈ (parseHtml html).flatMap (selectAllN "img"))
    (hsrc : getAttrL attrs "src" = none ∨ getAttrL attrs "src" = some "") :
    (⟨"", (getAttrL attrs "alt").getD "", AssetType.image⟩ : ExtractedAsset) ∈
      (parseDocument html docId).assets ∧
    transformN (HNode.elem "img" attrs ch) ∈
      ((parseHtml html).map transformN).flatMap (selectAllN "img") ∧
    attrOfN (transformN (HNode.elem "img" attrs ch)) "src" = some "./assets/" := by
  have hgetd : (getAttrL attrs "src").getD "" = "" := by
    rcases hsrc with h | h <;> rw [h] <;> rfl
  have hasset : assetOfImg (HNode.elem "img" attrs ch) =
      ⟨"", (getAttrL attrs "alt").getD "", AssetType.image⟩ := by
    unfold assetOfImg
    simp only [attrOfN, hgetd, jsFileName_empty]
  refine ⟨?_, ?_, ?_⟩
  · rw [parseDocument_assets]
    refine List.mem_append_left _ ?_
    rw [← hasset]
    exact List.mem_map_of_mem assetOfImg hmem
  · rw [selectAll_transform_roots]
    exact List.mem_map_of_mem transformN hmem
  · rw [transformN_img]
    show getAttrL (rewriteImgAttrs attrs) "src" = some "./assets/"
    rw [rewriteImgAttrs_src, hgetd, jsFileName_empty]
    rfl

/-- Witness for C10 at a concrete input. -/
theorem c10_witness :
    (HNode.elem "img" [("alt", "a")] HNodeList.hnil ∈
      (parseHtml "<img alt=\"a\">").flatMap (selectAllN "img")) ∧
    (⟨"", "a", AssetType.image⟩ : ExtractedAsset) ∈
      (parseDocument "<img alt=\"a\">" "d").assets ∧
    attrOfN (transformN (HNode.elem "img" [("alt", "a")] HNodeList.hnil)) "src" =
      some "./assets/" := by
  have h := c10_img_empty_src "<img alt=\"a\">" "d" [("alt", "a")] HNodeList.hnil
    (by decide) (Or.inl (by decide))
  exact ⟨by decide, h.1, h.2.2⟩

/-- C6: for every anchor whose `href` or `data-video` starts with
`webpubvid://`, `parseDocument` emits a video reference whose link is the
`data-video` value when that attribute carries a (non-empty) value and the
`href` value otherwise, and whose text is the anchor's trimmed visible
text, defaulting to `"Video"` when empty; the same reference is also
appended to the asset list with kind video and `fileName` equal to its
link. -/
theorem c6_video_references (html docId : String) (a : HNode)
    (hmem : a ∈ (parseHtml html).flatMap (selectAllN "a"))
    (hvid : strStartsWith ((attrOfN a "href").getD "") "webpubvid://" = true ∨
      strStartsWith ((attrOfN a "data-video").getD "") "webpubvid://" = true) :
    (⟨RefType.video,
        if (attrOfN a "data-video").getD "" = "" then (attrOfN a "href").getD ""
        else (attrOfN a "data-video").getD "",
        if jsTrim (textContentN a) = "" then "Video"
        else jsTrim (textContentN a)⟩ : ExtractedReference) ∈
      (parseDocument html docId).references ∧
    (⟨(if (attrOfN a "data-video").getD "" = "" then (attrOfN a "href").getD ""
        else (attrOfN a "data-video").getD ""),
      (if jsTrim (textContentN a) = "" then "Video" else jsTrim (textContentN a)),
      AssetType.video⟩ : ExtractedAsset) ∈
      (parseDocument html docId).assets := by
  set r : ExtractedReference :=
    ⟨RefType.video,
      if (attrOfN a "data-video").getD "" = "" then (attrOfN a "href").getD ""
      else (attrOfN a "data-video").getD "",
      if jsTrim (textContentN a) = "" then "Video"
      else jsTrim (textContentN a)⟩ with hr
  have hin : r ∈ refsOfAnchor a := by
    unfold refsOfAnchor
    refine List.mem_append_right _ ?_
    have hcond : (strStartsWith ((attrOfN a "href").getD "") "webpubvid://" ∨
        strStartsWith ((attrOfN a "data-video").getD "") "webpubvid://") := by
      rcases hvid with h | h
      · exact Or.inl (by rw [h])
      · exact Or.inr (by rw [h])
    rw [if_pos hcond]
    simp [hr]
  have href : r ∈ (parseDocument html docId).references := by
    rw [parseDocument_references]
    exact List.mem_flatMap.mpr ⟨a, hmem, hin⟩
  refine ⟨href, ?_⟩
  rw [parseDocument_assets]
  refine List.mem_append_right _ ?_
  have hfilter : r ∈ (((parseHtml html).flatMap (selectAllN "a")).flatMap
      refsOfAnchor).filter (fun x => x.type = RefType.video) := by
    refine List.mem_filter.mpr ⟨?_, by simp [hr]⟩
    rw [parseDocument_references] at href
    exact href
  have := List.mem_map_of_mem
    (fun v : ExtractedReference =>
      (⟨v.link, v.text, AssetType.video⟩ : ExtractedAsset)) hfilter
  simpa [hr] using this

/-- Witness for C6 at a concrete input (both attributes set: `data-video`
wins; empty visible text: the literal `"Video"` is used). -/
theorem c6_witness :
    (HNode.elem "a" [("href", "webpubvid://v"), ("data-video", "webpubvid://w")]
        HNodeList.hnil ∈
      (parseHtml "<a href=\"webpubvid://v\" data-video=\"webpubvid://w\"></a>").flatMap
        (selectAllN "a")) ∧
    (⟨RefType.video, "webpubvid://w", "Video"⟩ : ExtractedReference) ∈
      (parseDocument "<a href=\"webpubvid://v\" data-video=\"webpubvid://w\"></a>" "d").references ∧
    (⟨"webpubvid://w", "Video", AssetType.video⟩ : ExtractedAsset) ∈
      (parseDocument "<a href=\"webpubvid://v\" data-video=\"webpubvid://w\"></a>" "d").assets := by
  have h := c6_video_references
    "<a href=\"webpubvid://v\" data-video=\"webpubvid://w\"></a>" "d"
    (HNode.elem "a" [("href", "webpubvid://v"), ("data-video", "webpubvid://w")]
      HNodeList.hnil)
    (by decide) (Or.inl (by decide))
  refine ⟨by decide, ?_, ?_⟩
  · have := h.1
    simpa using this
  · have := h.2
    simpa using this

/-- C4 (failing-input evaluation): `parseDocument` is not idempotent on its
`html` output.  For an `<img>` whose `src` is empty, the first pass
rewrites `src` to `./assets/`; on a second pass the file-name fallback
`split('/').pop() || src` returns the whole already-rewritten `src`
(because the last path segment is empty), so the `src` becomes
`./assets/./assets/` and the serialized document changes. -/
theorem c4_parseDocument_not_idempotent :
    (parseDocument "<img src=\"\">" "d").html =
      "<img src=\"./assets/\" class=\"jw-image\">" ∧
    (parseDocument ((parseDocument "<img src=\"\">" "d").html) "d").html =
      "<img src=\"./assets/./assets/\" class=\"jw-image\">" ∧
    (parseDocument ((parseDocument "<img src=\"\">" "d").html) "d").html ≠
      (parseDocument "<img src=\"\">" "d").html := by
  refine ⟨by decide, by decide, by decide⟩

/-! ## `EpubSearchEngine` (src/src/bible_epub_poc.ts). -/

/-- Scan for the first `>`: the characters before it, whether it was
found, and the characters after it. -/
def splitAtGt : List Char → List Char × Bool × List Char
  | [] => ([], false, [])
  | '>' :: rest => ([], true, rest)
  | c :: rest =>
    let r := splitAtGt rest
    (c :: r.1, r.2.1, r.2.2)

/-- `html.replace(/<[^>]+>/g, ' ')`: each maximal `<...>` run with at least
one character between the brackets becomes one space; a `<` with no
matching `>` (or an immediate `>`) stays literal text. -/
def stripTagsGo : Nat → List Char → List Char
  | 0, _ => []
  | _ + 1, [] => []
  | fuel + 1, '<' :: rest =>
    let r := splitAtGt rest
    if r.2.1 ∧ ¬ r.1 = [] then ' ' :: stripTagsGo fuel r.2.2
    else '<' :: stripTagsGo fuel rest
  | fuel + 1, c :: rest => c :: stripTagsGo fuel rest

def stripTags (s : String) : String :=
  String.mk (stripTagsGo s.data.length s.data)

/-- `replace(/\s+/g, ' ')`: collapse whitespace runs to one space. -/
def collapseWsGo : Nat → List Char → List Char
  | 0, _ => []
  | _ + 1, [] => []
  | fuel + 1, c :: rest =>
    if c.isWhitespace then ' ' :: collapseWsGo fuel (rest.dropWhile Char.isWhitespace)
    else c :: collapseWsGo fuel rest

def collapseWs (s : String) : String :=
  String.mk (collapseWsGo s.data.length s.data)

/-- `split(/\s+/)`: split on maximal whitespace runs; a leading or trailing
run contributes an empty segment, exactly as the JavaScript regex split
does. -/
def splitWsGo : Nat → List Char → List Char → List String
  | 0, cur, _ => [String.mk cur.reverse]
  | _ + 1, cur, [] => [String.mk cur.reverse]
  | fuel + 1, cur, c :: rest =>
    if c.isWhitespace then
      String.mk cur.reverse :: splitWsGo fuel [] (rest.dropWhile Char.isWhitespace)
    else splitWsGo fuel (c :: cur) rest

def jsSplitWs (s : String) : List String :=
  splitWsGo s.data.length [] s.data

/-- The combining-mark strip `replace(/[̀-ͯ]/g, "")`.  The
preceding `normalize("NFD")` is modelled as the identity, which is exact on
strings without composed characters (every concrete input in this
development is ASCII). -/
def stripCombiningMarks (s : String) : String :=
  String.mk (s.data.filter (fun c => ¬ (0x300 ≤ c.toNat ∧ c.toNat ≤ 0x36F)))

/-- `replace(/[.,;:"«»()!?]/g, "")`. -/
def stripPunct (s : String) : String :=
  String.mk (s.data.filter
    (fun c => ¬ c ∈ ['.', ',', ';', ':', '"', '«', '»', '(', ')', '!', '?']))

/-- `EpubSearchEngine.tokenize`: lowercase, strip diacritics, strip
punctuation, split on whitespace, keep tokens longer than two characters. -/
def tokenize (text : String) : List String :=
  (jsSplitWs (stripPunct (stripCombiningMarks
    (String.mk (text.data.map Char.toLower))))).filter (fun w => 2 < w.length)

/-- One indexed node. -/
structure BibleNode where
  id : String
  title : String
  text : String
  html : String
deriving DecidableEq

/-- JavaScript `Map` lookup on an insertion-ordered association list. -/
def assocGet {α : Type} : List (String × α) → String → Option α
  | [], _ => none
  | (k, v) :: rest, key => if k = key then some v else assocGet rest key

/-- JavaScript `Map.set`: update in place, else append. -/
def assocSet {α : Type} : List (String × α) → String → α → List (String × α)
  | [], key, v => [(key, v)]
  | (k, w) :: rest, key, v =>
    if k = key then (k, v) :: rest else (k, w) :: assocSet rest key v

/-- The searcher's state: inverted index (token to posting list of node
ids) and node store, both insertion-ordered. -/
structure EpubSearchEngine where
  index : List (String × List String)
  nodes : List (String × BibleNode)
deriving DecidableEq

def emptyEngine : EpubSearchEngine := ⟨[], []⟩

/-- `EpubSearchEngine.addNode`: strip tags, collapse whitespace, trim,
store the node, and append the id once to the posting list of every token
of the text. -/
def addNode (e : EpubSearchEngine) (id title html : String) : EpubSearchEngine :=
  let text := jsTrim (collapseWs (stripTags html))
  let nodes := assocSet e.nodes id ⟨id, title, text, html⟩
  let words := tokenize text
  let index := words.foldl (fun idx word =>
    let cur := (assocGet idx word).getD []
    if id ∈ cur then idx else assocSet idx word (cur ++ [id])) e.index
  ⟨index, nodes⟩

/-- Stable insert for a descending sort: a new entry goes after every
earlier entry with a score at least as large (JavaScript's sort is
stable). -/
def insertDescStable (x : String × Nat) : List (String × Nat) → List (String × Nat)
  | [] => [x]
  | y :: rest => if x.2 ≤ y.2 then y :: insertDescStable x rest else x :: y :: rest

/-- Stable descending sort by score. -/
def sortDescStable (l : List (String × Nat)) : List (String × Nat) :=
  l.foldl (fun acc x => insertDescStable x acc) []

/-- One search hit. -/
structure SearchResult where
  score : Nat
  node : BibleNode
deriving DecidableEq

/-- `EpubSearchEngine.search`: tokenize the query, count matched query
tokens per candidate id, sort descending by score (stable) and attach the
stored nodes. -/
def search (e : EpubSearchEngine) (query : String) : List SearchResult :=
  let tokens := tokenize query
  if tokens = [] then []
  else
    let results := tokens.foldl (fun res token =>
      let postings := (assocGet e.index token).getD []
      postings.foldl (fun r id => assocSet r id ((assocGet r id).getD 0 + 1)) res) []
    (sortDescStable results).map (fun p =>
      ⟨p.2, (assocGet e.nodes p.1).getD ⟨"", "", "", ""⟩⟩)

/-- The two-document engine of the claim. -/
def c2Engine : EpubSearchEngine :=
  addNode (addNode emptyEngine "1" "t" "<p>love and love</p>") "2" "t2" "<p>love</p>"

/-- C2 (counterexample): after adding document 1 with html
`<p>love and love</p>` and document 2 with `<p>love</p>`, searching
`"love"` does not return scores 2 and 1 — the posting list records each
document id once per token, and the score counts matched query tokens (one
here), not term occurrences, so both documents score 1. -/
theorem c2_counterexample :
    ¬ (search c2Engine "love").map (fun r => (r.score, r.node.id)) =
        [(2, "1"), (1, "2")] := by
  decide

/-- C2 (amended): searching `"love"` on that engine returns document 1
first and document 2 second, each with score 1: the single query token
matches both documents, each once, and the tie keeps posting-list
(insertion) order, so document 1 is still listed before document 2. -/
theorem c2_search_love_scores :
    (search c2Engine "love").map (fun r => (r.score, r.node.id)) =
      [(1, "1"), (1, "2")] := by
  decide
